import Mathlib

/-!
# urlutil: lenient URL parsing and path merging

A shallow embedding of `github.com/projectdiscovery/utils/url` (`url.go`, `utils.go`),
and of the loop of `uncover/agent/shodanidb` (`shodan.go`) that sends the results of one
response.

Go strings are modelled as lists of Unicode characters (`Str`), which covers every
valid UTF-8 string.  `len` is the UTF-8 byte length (`goLen`).  Searching for an ASCII
rune or for a substring gives the same split point on bytes and on characters, so
slices are taken by character position.

What the two files use but do not define is a parameter of the model: the delegate
parser `net/url.Parse`, the parameter store `Params` and the character set
`RFCEscapeCharSet`.  The package variable `DisableAutoCorrect` of `url.go` is global
state that `ParseURL` reads; it is passed explicitly, with the other parameters.
-/

namespace Urlutil

/-- A Go string, as the list of its characters. -/
abbrev Str := List Char

/-- Width in bytes of the UTF-8 encoding of one character. -/
def runeLen (c : Char) : Nat :=
  if c.toNat < 128 then 1 else if c.toNat < 2048 then 2 else if c.toNat < 65536 then 3 else 4

/-- Go `len(s)`: the number of bytes of the string. -/
def goLen : Str → Nat
  | [] => 0
  | c :: t => runeLen c + goLen t

/-- Go `strings.HasPrefix(s, p)`. -/
def HasPrefix (s p : Str) : Bool := p.isPrefixOf s

/-- Go `strings.HasSuffix(s, p)`. -/
def HasSuffix (s p : Str) : Bool := p.isSuffixOf s

/-- Go `strings.TrimLeft(s, cutset)`: drops every leading character that is in `cutset`. -/
def TrimLeft (s cutset : Str) : Str := s.dropWhile (fun c => cutset.contains c)

/-- Go `strings.IndexRune(s, c)`, with `none` for `-1`. -/
def IndexRune : Str → Char → Option Nat
  | [], _ => none
  | x :: t, c => if x = c then some 0 else (IndexRune t c).map (· + 1)

/-- Go `strings.Index(s, sub)`, with `none` for `-1`. -/
def Index : Str → Str → Option Nat
  | [], sub => if sub = [] then some 0 else none
  | x :: t, sub => if sub.isPrefixOf (x :: t) then some 0 else (Index t sub).map (· + 1)

/-- Go `strings.Contains(s, sub)`. -/
def Contains (s sub : Str) : Bool := (Index s sub).isSome

/-- Go `strings.SplitN(s, sep, 2)` for a non-empty separator: `[s]` when `sep` does not
occur in `s`, otherwise the text before and the text after its first occurrence. -/
def SplitN2 (s sep : Str) : List Str :=
  match Index s sep with
  | none => [s]
  | some i => [s.take i, s.drop (i + sep.length)]

/-- The function `mergePaths` of `utils.go`. -/
def mergePaths (elem1 elem2 : Str) : Str :=
  let elem2 := if HasSuffix elem1 "/".toList && HasPrefix elem2 "/".toList
    then TrimLeft elem2 "/".toList else elem2
  if elem1 = [] then elem2
  else if elem2 = [] then elem1
  else
    let elem2 := if !HasSuffix elem1 "/".toList && !HasPrefix elem2 "/".toList
      then "/".toList ++ elem2 else elem2
    if elem1 = elem2 then elem1
    else if goLen elem1 > goLen elem2 && HasSuffix elem1 elem2 then elem1
    else if goLen elem1 < goLen elem2 && HasPrefix elem2 elem1 then elem2
    else elem1 ++ elem2

/-- The function `stringsutil.HasPrefixAny` (projectdiscovery/utils/strings): true when
`s` starts with one of the given prefixes. -/
def HasPrefixAny (s : Str) (prefixes : List Str) : Bool := prefixes.any (fun p => HasPrefix s p)

/-- The set built by `getrunemap` (not in `url.go`/`utils.go`) from the runes of its
argument, as a membership test. -/
def getrunemap (runes : Str) : Char → Bool := fun c => runes.contains c

/-- The function `shouldEscape` of `utils.go`; `rfc` is the package constant
`RFCEscapeCharSet`, which the two files use but do not define. -/
def shouldEscape (rfc : Str) : Str → Bool
  | [] => false
  | v :: ss =>
    if v = '/' then shouldEscape rfc ss
    else if v.toNat > 127 then true
    else if getrunemap rfc v then true
    else shouldEscape rfc ss

/-- The fields of Go `net/url.URL`.  `User` holds the text that `Userinfo.String()`
renders, the only thing this package reads from it; `none` is the nil pointer. -/
structure NetURL where
  Scheme : Str := []
  Opaque : Str := []
  User : Option Str := none
  Host : Str := []
  Path : Str := []
  RawPath : Str := []
  ForceQuery : Bool := false
  RawQuery : Str := []
  Fragment : Str := []
  RawFragment : Str := []
deriving DecidableEq, Repr

/-- The struct `URL` of `url.go`: the embedded `net/url.URL` and the parser's own fields.
`P` is the type of the parameter store; a nil `Params` is the empty store. -/
structure URL (P : Type) extends NetURL where
  Original : Str
  Unsafe : Bool
  IsRelative : Bool
  Params : P
deriving DecidableEq, Repr

/-- The operations of the parameter store `Params` that `url.go` calls.  The store is
defined elsewhere in the package, so it is a parameter here. -/
structure ParamsOps (P : Type) where
  /-- `make(Params)` -/
  empty : P
  /-- `p.Decode(raw)`: the store after decoding `raw` into it -/
  Decode : P → Str → P
  /-- `p.Encode()` -/
  Encode : P → Str
  /-- `p.Merge(x)`: the store after merging `x` into it -/
  Merge : P → P → P
  /-- `len(p)` -/
  len : P → Nat

/-- What `ParseURL` reads besides its arguments: the three parts defined outside
`url.go`/`utils.go` and the global `DisableAutoCorrect`. -/
structure Env (P : Type) where
  /-- `net/url.Parse`: the parsed URL or the text of its error -/
  urlParse : Str → Except Str NetURL
  /-- the parameter store -/
  params : ParamsOps P
  /-- the constant `RFCEscapeCharSet` -/
  RFCEscapeCharSet : Str
  /-- the package variable `DisableAutoCorrect` -/
  DisableAutoCorrect : Bool

/-- The errors `ParseURL` returns, one per `return nil, ...` of the source. -/
inductive ParseError where
  /-- "failed to parse url got empty input" -/
  | emptyInput
  /-- "failed to parse url", wrapping the delegate's error -/
  | parseFailed (parseErr : Str)
  /-- "failed to parse input url", wrapping the delegate's error -/
  | inputParseFailed (parseErr : Str)
  /-- "failed to parse url %v got empty host" -/
  | emptyHost
  /-- "got empty host when url is not relative" -/
  | emptyHostNotRelative
deriving DecidableEq, Repr

variable {P : Type}

/-- The method `Update`: `u.RawQuery = u.Params.Encode()`. -/
def Update (ops : ParamsOps P) (u : URL P) : URL P :=
  { u with RawQuery := ops.Encode u.Params }

/-- The function `copy` of `url.go`: host, opaque, path, raw path, scheme and user are
taken from `src`; fragment and parameters are not touched. -/
def copy (dst : URL P) (src : NetURL) : URL P :=
  { dst with
    Host := src.Host, Opaque := src.Opaque, Path := src.Path,
    RawPath := src.RawPath, Scheme := src.Scheme, User := src.User }

/-- The method `fetchParams`. -/
def fetchParams (ops : ParamsOps P) (u : URL P) : URL P :=
  let u : URL P :=
    match IndexRune u.Original '#' with
    | some i => { u with Fragment := u.Original.drop (i + 1), Original := u.Original.take i }
    | none => u
  match IndexRune u.Original '?' with
  | none => u
  | some index =>
    let encodedParams := u.Original.drop (index + 1)
    let u : URL P :=
      { u with Params := ops.Decode u.Params encodedParams, Original := u.Original.take index }
    Update ops u

/-- The method `parseRelativePath`. -/
def parseRelativePath (rfc : Str) (u : URL P) : URL P :=
  if u.Host = [] || goLen u.Host < 4 then
    if shouldEscape rfc u.Original then
      { u with IsRelative := true, Path := u.Original }
    else u
  else
    match SplitN2 u.Original u.Host with
    | [_, after] => { u with Path := after }
    | _ => u

/-- Lines 204-224 of `ParseURL`: the delegate is run on the input when it looks like a
full URL, otherwise on `"https://" + input`. -/
def parseHost (env : Env P) (u : URL P) (inputURL : Str) : Except ParseError (URL P) :=
  if HasPrefixAny inputURL ["http".toList, "https".toList, "//".toList]
      || Contains inputURL "://".toList then
    let u : URL P := { u with IsRelative := false }
    match env.urlParse inputURL with
    | .error parseErr => .error (.parseFailed parseErr)
    | .ok urlparse => .ok (copy u urlparse)
  else
    match env.urlParse ("https://".toList ++ inputURL) with
    | .error _ => .ok { u with IsRelative := true }
    | .ok urlparse => .ok (copy u { urlparse with Scheme := [] })

/-- Lines 226-259 of `ParseURL`: the path of a relative input, the host check and the
autocorrection of an absolute one. -/
def parsePath (env : Env P) (u : URL P) (inputURL : Str) (isUnsafe : Bool) :
    Except ParseError (URL P) :=
  if u.IsRelative then
    match env.urlParse inputURL with
    | .error parseErr =>
      if !isUnsafe then .error (.inputParseFailed parseErr)
      else .ok { u with Path := inputURL }
    | .ok urlparse => .ok (copy u urlparse)
  else
    if u.Host = [] then .error .emptyHost
    else if !Contains u.Host ".".toList && !Contains u.Host ":".toList then
      if !env.DisableAutoCorrect then
        .ok { u with IsRelative := true, Path := inputURL, Host := [] }
      else .ok u
    else .ok u

/-- The function `ParseURL` of `url.go`. -/
def ParseURL (env : Env P) (inputURL : Str) (isUnsafe : Bool) : Except ParseError (URL P) :=
  let u : URL P :=
    { toNetURL := {}, Original := inputURL, Unsafe := isUnsafe, IsRelative := false,
      Params := env.params.empty }
  let u := fetchParams env.params u
  let inputURL := u.Original
  if inputURL = [] then .error .emptyInput
  else if HasPrefix inputURL "/".toList && !HasPrefix inputURL "//".toList then
    .ok { u with IsRelative := true, Path := u.Original }
  else
    match parseHost env u inputURL with
    | .error e => .error e
    | .ok u =>
      match parsePath env u inputURL isUnsafe with
      | .error e => .error e
      | .ok u =>
        if !u.IsRelative && u.Host = [] then .error .emptyHostNotRelative
        else .ok (parseRelativePath env.RFCEscapeCharSet u)

/-- The function `Parse` of `url.go`: `ParseURL(inputURL, false)`. -/
def Parse (env : Env P) (inputURL : Str) : Except ParseError (URL P) :=
  ParseURL env inputURL false

/-- The method `GetRelativePath`. -/
def GetRelativePath (ops : ParamsOps P) (u : URL P) : Str :=
  let buff : Str := []
  let buff :=
    if u.Path ≠ [] then
      (if !HasPrefix u.Path "/".toList then buff ++ ['/'] else buff) ++ u.Path
    else buff
  let buff := if ops.len u.Params > 0 then buff ++ ['?'] ++ ops.Encode u.Params else buff
  let buff := if u.Fragment ≠ [] then buff ++ ['#'] ++ u.Fragment else buff
  buff

/-- The method `String`. -/
def URL.String (ops : ParamsOps P) (u : URL P) : Str :=
  let buff : Str := []
  let buff := if u.Scheme ≠ [] then buff ++ (u.Scheme ++ "://".toList) else buff
  let buff :=
    match u.User with
    | some user => buff ++ user ++ ['@']
    | none => buff
  let buff := buff ++ u.Host
  buff ++ GetRelativePath ops u

/-- The method `MergePath`: the URL after the call and the error it returns (`none` for
a nil error). -/
def MergePath (env : Env P) (u : URL P) (newrelpath : Str) (isUnsafe : Bool) :
    URL P × Option ParseError :=
  match ParseURL env newrelpath isUnsafe with
  | .error err => (u, some err)
  | .ok ux =>
    let u : URL P := { u with Params := env.params.Merge u.Params ux.Params }
    let u : URL P := { u with Path := mergePaths u.Path ux.Path }
    let u : URL P := if ux.Fragment ≠ [] then { u with Fragment := ux.Fragment } else u
    (u, none)

/-- The function `AutoMergeRelPaths` of `utils.go`.  The error of `MergePath` is dropped,
as in the source. -/
def AutoMergeRelPaths (env : Env P) (path1 path2 : Str) : Except ParseError Str :=
  match Parse env path1 with
  | .error err1 => .error err1
  | .ok u1 =>
    match Parse env path2 with
    | .error err2 => .error err2
    | .ok u2 =>
      let u1 : URL P := (MergePath env u1 u2.Path false).1
      let u1 : URL P := { u1 with Params := env.params.Merge u1.Params u2.Params }
      .ok (GetRelativePath env.params u1)

/-- Lines 29-58 of `mergePaths`: the rules that follow the trimming step. -/
def mergeRest (elem1 elem2 : Str) : Str :=
  if elem1 = [] then elem2
  else if elem2 = [] then elem1
  else
    let elem2 := if !HasSuffix elem1 "/".toList && !HasPrefix elem2 "/".toList
      then "/".toList ++ elem2 else elem2
    if elem1 = elem2 then elem1
    else if goLen elem1 > goLen elem2 && HasSuffix elem1 elem2 then elem1
    else if goLen elem1 < goLen elem2 && HasPrefix elem2 elem1 then elem2
    else elem1 ++ elem2

/-- Lines 50-58 of `mergePaths`: the overlap rules, on the two paths as adjusted by the
slash steps. -/
def overlapRules (elem1 elem2 : Str) : Str :=
  if elem1 = elem2 then elem1
  else if goLen elem1 > goLen elem2 && HasSuffix elem1 elem2 then elem1
  else if goLen elem1 < goLen elem2 && HasPrefix elem2 elem1 then elem2
  else elem1 ++ elem2

/-- Go `strings.LastIndexByte(s, c)` for an ASCII `c`, with `none` for `-1`. -/
def LastIndexByte (s : Str) (c : Char) : Option Nat :=
  (IndexRune s.reverse c).map (fun j => s.length - 1 - j)

/-- Go `strings.Replace(s, old, new, 1)`: the first occurrence of `old` replaced. -/
def Replace1 (s old new : Str) : Str :=
  match Index s old with
  | none => s
  | some i => s.take i ++ new ++ s.drop (i + old.length)

/-- Go `net/url`'s `(*URL).Port()` as a function of the host: the text after the last
colon when it is made of digits only, otherwise empty. -/
def Port (host : Str) : Str :=
  match LastIndexByte host ':' with
  | none => []
  | some colon =>
    if (host.drop (colon + 1)).all (fun b => '0' ≤ b && b ≤ '9') then host.drop (colon + 1)
    else []

/-- The method `UpdatePort`. -/
def UpdatePort (u : URL P) (newport : Str) : URL P :=
  let u : URL P :=
    if Port u.Host ≠ [] then { u with Host := Replace1 u.Host (Port u.Host) newport } else u
  { u with Host := u.Host ++ (":".toList ++ newport) }

/-! ## The Shodan InternetDB agent (`shodan.go`) -/

/-- The fields of `ShodanResponse` that `query` reads. -/
structure ShodanResponse where
  IP : Str
  Ports : List Int
  Hostnames : List Str
deriving DecidableEq, Repr

/-- The fields of `uncover.Result` that `query` writes. -/
structure Result where
  Source : Str := []
  IP : Str := []
  Port : Int := 0
  Host : Str := []
  Raw : Str := []
  Error : Option Str := none
deriving DecidableEq, Repr

/-- Lines 87-90 of `query`: the inner loop over the host names.  Returns the variable
`result` as the loop leaves it and the results sent on the channel, in order. -/
def sendHostnames (result : Result) : List Str → Result × List Result
  | [] => (result, [])
  | hostname :: rest =>
    let result := { result with Host := hostname }
    let next := sendHostnames result rest
    (next.1, result :: next.2)

/-- Lines 84-91 of `query`: the loop over the ports. -/
def sendPorts (hostnames : List Str) (result : Result) : List Int → Result × List Result
  | [] => (result, [])
  | port :: rest =>
    let result := { result with Port := port }
    let inner := sendHostnames result hostnames
    let next := sendPorts hostnames inner.1 rest
    (next.1, result :: inner.2 ++ next.2)

/-- Lines 81-91 of `query`: the results sent for one decoded response; `raw` is the
response marshalled back to JSON. -/
def sendResponse (shodanResponse : ShodanResponse) (raw : Str) : List Result :=
  let result : Result :=
    { Source := "shodan-idb".toList, IP := shodanResponse.IP, Raw := raw }
  (sendPorts shodanResponse.Hostnames result shodanResponse.Ports).2

/-! ## Concrete parameters for the examples -/

/-- The characters of RFC 3986 that are reserved in a URL, and the percent sign: the
value used for `RFCEscapeCharSet` in the examples. -/
def rfcReserved : Str := "!*'();:@&=+$,/?%#[]".toList

/-- Splits a string at every occurrence of the character `c`. -/
def splitAll (c : Char) : Str → List Str
  | [] => [[]]
  | x :: t =>
    if x = c then [] :: splitAll c t
    else
      match splitAll c t with
      | [] => [[x]]
      | w :: ws => (x :: w) :: ws

/-- Adds one value to the values of a key, after the values it already has. -/
def addValue (key value : Str) : List (Str × List Str) → List (Str × List Str)
  | [] => [(key, [value])]
  | (k, vs) :: rest =>
    if k = key then (k, vs ++ [value]) :: rest else (k, vs) :: addValue key value rest

/-- Modelled from the spec: the Parameter Store (the type `Params`, defined outside
`url.go` and `utils.go`), a "mapping from string key to ordered sequence of string values,
duplicate keys preserved as multiple values", whose `decode` "parses `a=b&c=d` forms into
itself", whose `merge` "unions entries, concatenating value sequences per key" and whose
`encode` is deterministic.  Percent-decoding is left out. -/
def kvStore : ParamsOps (List (Str × List Str)) where
  empty := []
  Decode := fun p raw =>
    (splitAll '&' raw).foldl
      (fun acc kv =>
        if kv = [] then acc
        else addValue (kv.takeWhile (· ≠ '=')) ((kv.dropWhile (· ≠ '=')).drop 1) acc)
      p
  Encode := fun p =>
    "&".toList.intercalate
      (p.flatMap (fun kvs => kvs.2.map (fun v => kvs.1 ++ "=".toList ++ v)))
  Merge := fun p x =>
    x.foldl (fun acc kvs => kvs.2.foldl (fun acc v => addValue kvs.1 v acc) acc) p
  len := fun p => p.length

/-- The answers of Go `net/url.Parse` at the strings that the examples of this file pass
to it.  Any other string is answered with an error; no example consults the delegate on
such a string. -/
def netURLParse (s : Str) : Except Str NetURL :=
  if s = "https://admin".toList then
    .ok { Scheme := "https".toList, Host := "admin".toList }
  else if s = "https://a:1".toList then
    .ok { Scheme := "https".toList, Host := "a:1".toList }
  else if s = "https://a.b/é".toList then
    .ok { Scheme := "https".toList, Host := "a.b".toList, Path := "/é".toList,
          RawPath := "/é".toList }
  else if s = "http://a.bc@a.bc/x".toList then
    .ok { Scheme := "http".toList, User := some "a.bc".toList, Host := "a.bc".toList,
          Path := "/x".toList }
  else if s = "http://a.bc@a.bc/@a.bc/x".toList then
    .ok { Scheme := "http".toList, User := some "a.bc".toList, Host := "a.bc".toList,
          Path := "/@a.bc/x".toList }
  else if s = "https://é.b/x".toList then
    .ok { Scheme := "https".toList, Host := "é.b".toList, Path := "/x".toList }
  else if s = "https://example.com".toList then
    .ok { Scheme := "https".toList, Host := "example.com".toList }
  else if s = "https://a.bcd//x.yz/w".toList then
    .ok { Scheme := "https".toList, Host := "a.bcd".toList, Path := "//x.yz/w".toList }
  else if s = "//x.yz/w".toList then
    .ok { Host := "x.yz".toList, Path := "/w".toList }
  else if s = "//httpbin.org/get".toList then
    .ok { Host := "httpbin.org".toList, Path := "/get".toList }
  else if s = "httpbin.org/get".toList then
    .ok { Path := "httpbin.org/get".toList }
  else if s = "http://a b.com/".toList then
    .error "parse \"http://a b.com/\": invalid character \" \" in host name".toList
  else if s = "https://%zz".toList then
    .error "parse \"https://%zz\": invalid URL escape \"%zz\"".toList
  else if s = "%zz".toList then
    .error "parse \"%zz\": invalid URL escape \"%zz\"".toList
  else .error "not tabulated".toList

/-- The environment of the examples: the tabulated delegate, the key-value store, the
reserved characters, and `DisableAutoCorrect` as given. -/
def sampleEnv (disableAutoCorrect : Bool) : Env (List (Str × List Str)) where
  urlParse := netURLParse
  params := kvStore
  RFCEscapeCharSet := rfcReserved
  DisableAutoCorrect := disableAutoCorrect

/-! ## Specification-side vocabulary -/

/-- The text of `s` before the first occurrence of `c` (all of `s` when there is none). -/
def beforeRune (c : Char) (s : Str) : Str := s.takeWhile (· ≠ c)

/-- The text of `s` after the first occurrence of `c` (empty when there is none). -/
def afterRune (c : Char) (s : Str) : Str := (s.dropWhile (· ≠ c)).drop 1

/-- The input with its fragment and then its query removed. -/
def stripped (input : Str) : Str := beforeRune '?' (beforeRune '#' input)

/-- The URL value that `ParseURL` starts from, after `fetchParams`. -/
def initial (env : Env P) (inputURL : Str) (isUnsafe : Bool) : URL P :=
  fetchParams env.params
    { toNetURL := {}, Original := inputURL, Unsafe := isUnsafe, IsRelative := false,
      Params := env.params.empty }

/-- The string `ParseURL` hands to the delegate first: the stripped input itself when
it starts with "http" or "//" or contains "://", otherwise "https://" followed by it. -/
def delegateInput (s : Str) : Str :=
  if HasPrefixAny s ["http".toList, "https".toList, "//".toList] || Contains s "://".toList
  then s else "https://".toList ++ s

/-- The value `ParseURL` returns for "/path?a=1#frag". -/
def pathQueryFragment : URL (List (Str × List Str)) :=
  { Path := "/path".toList, RawQuery := "a=1".toList, Fragment := "frag".toList,
    Original := "/path".toList, Unsafe := false, IsRelative := true,
    Params := [("a".toList, ["1".toList])] }

/-- The value `ParseURL` returns for "/%20test%0a". -/
def percentPath : URL (List (Str × List Str)) :=
  { Path := "/%20test%0a".toList, Original := "/%20test%0a".toList, Unsafe := false,
    IsRelative := true, Params := [] }

/-- The value `ParseURL` returns for "a.b/é": the path is the whole input, not the
delegate's "/é". -/
def shortHostPath : URL (List (Str × List Str)) :=
  { Host := "a.b".toList, Path := "a.b/é".toList, RawPath := "/é".toList,
    Original := "a.b/é".toList, Unsafe := false, IsRelative := true, Params := [] }

/-- The relative form as claim C16 words it: the path with a slash put in front
whenever it does not start with one, then "?" and the encoded parameters when there is
at least one, then "#" and the fragment when it is not empty. -/
def relativeFormAsClaimed (ops : ParamsOps P) (u : URL P) : Str :=
  (if HasPrefix u.Path "/".toList then u.Path else '/' :: u.Path)
    ++ (if 1 ≤ ops.len u.Params then '?' :: ops.Encode u.Params else [])
    ++ (if u.Fragment = [] then [] else '#' :: u.Fragment)

/-- The full serialisation as claim C16 words it: the scheme and "://", the user info
and "@" when present, the host, and the relative form. -/
def stringAsClaimed (ops : ParamsOps P) (u : URL P) : Str :=
  u.Scheme ++ "://".toList
    ++ (match u.User with
        | some user => user ++ ['@']
        | none => [])
    ++ u.Host ++ relativeFormAsClaimed ops u

/-- The results claim C20 expects for one response: for each port, the bare ip/port
result with an empty host, then one result per host name. -/
def resultsAsClaimed (base : Result) (ports : List Int) (hostnames : List Str) :
    List Result :=
  ports.flatMap (fun p =>
    { base with Port := p, Host := [] }
      :: hostnames.map (fun h => { base with Port := p, Host := h }))

/-- The value `Parse` returns for "example.com": no scheme and no path. -/
def bareHost : URL (List (Str × List Str)) :=
  { Host := "example.com".toList, Original := "example.com".toList, Unsafe := false,
    IsRelative := false, Params := [] }

/-- The parameters of an input: the text between its first '?' and its fragment, decoded
into an empty store; the empty store when there is no '?' before the fragment. -/
def paramsOf (ops : ParamsOps P) (input : Str) : P :=
  if '?' ∈ beforeRune '#' input
  then ops.Decode ops.empty (afterRune '?' (beforeRune '#' input))
  else ops.empty

/-- The URL that the examples of `MergePath` start from: "https://example.com/blog?a=1#top". -/
def blogURL : URL (List (Str × List Str)) :=
  { Scheme := "https".toList, Host := "example.com".toList, Path := "/blog".toList,
    RawQuery := "a=1".toList, Fragment := "top".toList,
    Original := "https://example.com/blog".toList, Unsafe := false, IsRelative := false,
    Params := [("a".toList, ["1".toList])] }

/-- The value `Parse` returns for "/a". -/
def slashA : URL (List (Str × List Str)) :=
  { Path := "/a".toList, Original := "/a".toList, Unsafe := false, IsRelative := true,
    Params := [] }

/-- A URL whose host carries a port: "example.com:80". -/
def portURL : URL (List (Str × List Str)) :=
  { Scheme := "https".toList, Host := "example.com:80".toList,
    Original := "https://example.com:80".toList, Unsafe := false, IsRelative := false,
    Params := [] }

/-- The test of claim C18 as it is worded: some character other than '/' is above 127 or
is not a member of the set taken from `RFCEscapeCharSet`. -/
def shouldEscapeAsClaimed (rfc : Str) (ss : Str) : Bool :=
  ss.any (fun c => c ≠ '/' && (decide (c.toNat > 127) || !rfc.contains c))

/-- A decoded response with one address, two ports and one host name. -/
def twoPorts : ShodanResponse :=
  { IP := "1.2.3.4".toList, Ports := [80, 443], Hostnames := ["a.example".toList] }

/-- The run of slashes that a string starts with. -/
def leadingSlashes (b : Str) : Str := b.takeWhile (fun c => c == '/')

/-! ## Lemmas on the string primitives -/

theorem IndexRune_none {s : Str} {c : Char} (h : IndexRune s c = none) :
    c ∉ s ∧ beforeRune c s = s ∧ afterRune c s = [] := by
  induction s with
  | nil => simp [beforeRune, afterRune]
  | cons x t ih =>
    unfold IndexRune at h
    split at h
    · cases h
    · rename_i hx
      have ht : IndexRune t c = none := by
        cases hi : IndexRune t c with
        | none => rfl
        | some j => simp [hi] at h
      obtain ⟨h1, h2, h3⟩ := ih ht
      refine ⟨?_, ?_, ?_⟩
      · simp only [List.mem_cons, not_or]
        exact ⟨fun hc => hx hc.symm, h1⟩
      · simp only [beforeRune] at h2 ⊢
        rw [List.takeWhile_cons_of_pos (by simpa using hx), h2]
      · simp only [afterRune] at h3 ⊢
        rw [List.dropWhile_cons_of_pos (by simpa using hx), h3]

theorem IndexRune_some {s : Str} {c : Char} {i : Nat} (h : IndexRune s c = some i) :
    c ∈ s ∧ s.take i = beforeRune c s ∧ s.drop (i + 1) = afterRune c s := by
  induction s generalizing i with
  | nil => simp [IndexRune] at h
  | cons x t ih =>
    unfold IndexRune at h
    split at h
    · rename_i hx
      cases h
      subst hx
      simp [beforeRune, afterRune]
    · rename_i hx
      cases hi : IndexRune t c with
      | none => simp [hi] at h
      | some j =>
        simp only [hi, Option.map_some', Option.some.injEq] at h
        subst h
        obtain ⟨h1, h2, h3⟩ := ih hi
        refine ⟨List.mem_cons_of_mem _ h1, ?_, ?_⟩
        · simp only [beforeRune] at h2 ⊢
          rw [List.takeWhile_cons_of_pos (by simpa using hx), List.take_succ_cons, h2]
        · simp only [afterRune] at h3 ⊢
          rw [List.dropWhile_cons_of_pos (by simpa using hx), List.drop_succ_cons, h3]

theorem not_mem_beforeRune (c : Char) (s : Str) : c ∉ beforeRune c s := by
  intro h
  have := List.mem_takeWhile_imp h
  simp at this

theorem beforeRune_sublist (c : Char) (s : Str) : (beforeRune c s).Sublist s :=
  List.takeWhile_sublist _

theorem beforeRune_isPrefix (c : Char) (s : Str) : beforeRune c s <+: s :=
  List.takeWhile_prefix _


/-! ## What `fetchParams` leaves in each field -/

theorem fetchParams_Original (ops : ParamsOps P) (u : URL P) :
    (fetchParams ops u).Original = stripped u.Original := by
  unfold fetchParams stripped
  cases h1 : IndexRune u.Original '#' with
  | none =>
    obtain ⟨-, hb, -⟩ := IndexRune_none h1
    rw [hb]
    cases h2 : IndexRune u.Original '?' with
    | none => simp [h2, (IndexRune_none h2).2.1]
    | some j => simp [h2, Update, (IndexRune_some h2).2.1]
  | some i =>
    obtain ⟨-, hb, -⟩ := IndexRune_some h1
    simp only []
    rw [hb]
    cases h2 : IndexRune (beforeRune '#' u.Original) '?' with
    | none => simp [(IndexRune_none h2).2.1]
    | some j => simp [Update, (IndexRune_some h2).2.1]

theorem fetchParams_Fragment (ops : ParamsOps P) (u : URL P) :
    (fetchParams ops u).Fragment =
      if '#' ∈ u.Original then afterRune '#' u.Original else u.Fragment := by
  unfold fetchParams
  cases h1 : IndexRune u.Original '#' with
  | none =>
    obtain ⟨hm, -, -⟩ := IndexRune_none h1
    rw [if_neg hm]
    cases h2 : IndexRune u.Original '?' with
    | none => simp [h2]
    | some j => simp [h2, Update]
  | some i =>
    obtain ⟨hm, hb, ha⟩ := IndexRune_some h1
    rw [if_pos hm]
    simp only []
    rw [hb]
    cases h2 : IndexRune (beforeRune '#' u.Original) '?' with
    | none => simp [ha]
    | some j => simp [Update, ha]

theorem fetchParams_Params (ops : ParamsOps P) (u : URL P) :
    (fetchParams ops u).Params =
      if '?' ∈ beforeRune '#' u.Original
      then ops.Decode u.Params (afterRune '?' (beforeRune '#' u.Original))
      else u.Params := by
  unfold fetchParams
  cases h1 : IndexRune u.Original '#' with
  | none =>
    obtain ⟨-, hb, -⟩ := IndexRune_none h1
    rw [hb]
    cases h2 : IndexRune u.Original '?' with
    | none => simp [h2, (IndexRune_none h2).1]
    | some j => simp [h2, Update, (IndexRune_some h2).1, (IndexRune_some h2).2.2]
  | some i =>
    obtain ⟨-, hb, -⟩ := IndexRune_some h1
    simp only []
    rw [hb]
    cases h2 : IndexRune (beforeRune '#' u.Original) '?' with
    | none => simp [(IndexRune_none h2).1]
    | some j => simp [Update, (IndexRune_some h2).1, (IndexRune_some h2).2.2]

/-- Host, path, scheme, user, relative flag and leniency flag are not written by
`fetchParams`. -/
theorem fetchParams_frame (ops : ParamsOps P) (u : URL P) :
    (fetchParams ops u).Host = u.Host ∧ (fetchParams ops u).Path = u.Path ∧
    (fetchParams ops u).Scheme = u.Scheme ∧ (fetchParams ops u).User = u.User ∧
    (fetchParams ops u).IsRelative = u.IsRelative ∧ (fetchParams ops u).Unsafe = u.Unsafe := by
  unfold fetchParams
  cases h1 : IndexRune u.Original '#' with
  | none =>
    cases h2 : IndexRune u.Original '?' with
    | none => simp [h2]
    | some j => simp [h2, Update]
  | some i =>
    simp only []
    cases h2 : IndexRune (List.take i u.Original) '?' with
    | none => simp
    | some j => simp [Update]

/-! ## The later stages write neither `Original`, `Fragment` nor `Params` -/

theorem parseHost_frame {env : Env P} {u v : URL P} {s : Str}
    (h : parseHost env u s = .ok v) :
    v.Original = u.Original ∧ v.Fragment = u.Fragment ∧ v.Params = u.Params := by
  unfold parseHost at h
  split at h
  · split at h
    · cases h
    · cases h; simp [copy]
  · split at h
    · cases h; simp
    · cases h; simp [copy]

theorem parsePath_frame {env : Env P} {u v : URL P} {s : Str} {f : Bool}
    (h : parsePath env u s f = .ok v) :
    v.Original = u.Original ∧ v.Fragment = u.Fragment ∧ v.Params = u.Params := by
  unfold parsePath at h
  split at h
  · split at h
    · split at h
      · cases h
      · cases h; simp
    · cases h; simp [copy]
  · split at h
    · cases h
    · split at h
      · split at h
        · cases h; simp
        · cases h; simp
      · cases h; simp

theorem parseRelativePath_frame (rfc : Str) (u : URL P) :
    (parseRelativePath rfc u).Original = u.Original ∧
    (parseRelativePath rfc u).Fragment = u.Fragment ∧
    (parseRelativePath rfc u).Params = u.Params ∧
    (parseRelativePath rfc u).Host = u.Host := by
  unfold parseRelativePath
  split
  · split <;> simp
  · split <;> simp

theorem initial_Original (env : Env P) (input : Str) (f : Bool) :
    (initial env input f).Original = stripped input := by
  simp [initial, fetchParams_Original]

theorem initial_Fragment (env : Env P) (input : Str) (f : Bool) :
    (initial env input f).Fragment = afterRune '#' input := by
  rw [initial, fetchParams_Fragment]
  split
  · rfl
  · rename_i h
    simp only at h ⊢
    cases hi : IndexRune input '#' with
    | none => exact ((IndexRune_none hi).2.2).symm
    | some i => exact absurd (IndexRune_some hi).1 h

theorem initial_Params (env : Env P) (input : Str) (f : Bool) :
    (initial env input f).Params =
      if '?' ∈ beforeRune '#' input
      then env.params.Decode env.params.empty (afterRune '?' (beforeRune '#' input))
      else env.params.empty := by
  rw [initial, fetchParams_Params]

theorem initial_frame (env : Env P) (input : Str) (f : Bool) :
    (initial env input f).Host = [] ∧ (initial env input f).Path = [] ∧
    (initial env input f).IsRelative = false := by
  have := fetchParams_frame env.params
    ({ toNetURL := {}, Original := input, Unsafe := f, IsRelative := false,
       Params := env.params.empty } : URL P)
  simp only [initial]
  exact ⟨this.1, this.2.1, this.2.2.2.2.1⟩

/-- The body of `ParseURL`, with the value after `fetchParams` named. -/
theorem ParseURL_eq (env : Env P) (input : Str) (f : Bool) :
    ParseURL env input f =
      if (initial env input f).Original = [] then .error .emptyInput
      else if HasPrefix (initial env input f).Original "/".toList
          && !HasPrefix (initial env input f).Original "//".toList then
        .ok { initial env input f with
              IsRelative := true, Path := (initial env input f).Original }
      else
        match parseHost env (initial env input f) (initial env input f).Original with
        | .error e => .error e
        | .ok u =>
          match parsePath env u (initial env input f).Original f with
          | .error e => .error e
          | .ok u =>
            if !u.IsRelative && u.Host = [] then .error .emptyHostNotRelative
            else .ok (parseRelativePath env.RFCEscapeCharSet u) := by
  rfl

/-! ## The relative-path fast path -/

theorem slash_eq : "/".toList = ['/'] := rfl

theorem slashSlash_eq : "//".toList = ['/', '/'] := rfl

theorem HasPrefix_slash (s : Str) : HasPrefix s "/".toList = true ↔ ∃ t, s = '/' :: t := by
  rw [slash_eq]
  cases s with
  | nil => simp [HasPrefix]
  | cons c t =>
    simp only [HasPrefix, List.isPrefixOf, Bool.and_true, beq_iff_eq, List.cons.injEq,
      exists_eq_right']
    exact eq_comm

theorem HasPrefix_slashSlash (s : Str) :
    HasPrefix s "//".toList = true ↔ ∃ t, s = '/' :: '/' :: t := by
  rw [slashSlash_eq]
  cases s with
  | nil => simp [HasPrefix]
  | cons c t =>
    cases t with
    | nil => simp [HasPrefix, List.isPrefixOf]
    | cons d t =>
      simp only [HasPrefix, List.isPrefixOf, Bool.and_true, Bool.and_eq_true, beq_iff_eq,
        List.cons.injEq, exists_eq_right']
      constructor
      · rintro ⟨rfl, rfl⟩; exact ⟨t, rfl, rfl, rfl⟩
      · rintro ⟨w, rfl, rfl, -⟩; exact ⟨rfl, rfl⟩

theorem stripped_cons_slash (t : Str) :
    stripped ('/' :: t) = '/' :: stripped t := by
  simp [stripped, beforeRune, List.takeWhile]

theorem stripped_isPrefix (s : Str) : stripped s <+: s :=
  (beforeRune_isPrefix _ _).trans (beforeRune_isPrefix _ _)

/-- A string that starts with one slash only still does after stripping. -/
theorem stripped_fast {input : Str} (h1 : HasPrefix input "/".toList = true)
    (h2 : HasPrefix input "//".toList = false) :
    stripped input ≠ [] ∧ HasPrefix (stripped input) "/".toList = true ∧
    HasPrefix (stripped input) "//".toList = false := by
  obtain ⟨t, rfl⟩ := (HasPrefix_slash input).1 h1
  rw [stripped_cons_slash]
  refine ⟨by simp, (HasPrefix_slash _).2 ⟨_, rfl⟩, ?_⟩
  rw [Bool.eq_false_iff]
  intro h
  obtain ⟨r, hr⟩ := (HasPrefix_slashSlash _).1 h
  have hr2 : stripped t = '/' :: r := by simpa using hr
  have hp : ('/' :: r) <+: t := hr2 ▸ stripped_isPrefix t
  obtain ⟨w, hw⟩ := hp
  have : HasPrefix ('/' :: t) "//".toList = true :=
    (HasPrefix_slashSlash _).2 ⟨r ++ w, by rw [← hw]; rfl⟩
  rw [h2] at this
  cases this

/-- Claim C1: for every input that starts with "/" but not with "//", and either flag,
`ParseURL` succeeds; the result is relative, has an empty host, and its path is the input
with fragment and query removed; the result does not depend on the delegate parser. -/
theorem ParseURL_relative_fast_path (env : Env P) (input : Str) (isUnsafe : Bool)
    (h1 : HasPrefix input "/".toList = true) (h2 : HasPrefix input "//".toList = false) :
    ∃ u, ParseURL env input isUnsafe = .ok u ∧ u.IsRelative = true ∧ u.Host = [] ∧
      u.Path = beforeRune '?' (beforeRune '#' input) ∧
      ∀ delegate, ParseURL { env with urlParse := delegate } input isUnsafe = .ok u := by
  obtain ⟨hne, hp1, hp2⟩ := stripped_fast h1 h2
  have key : ∀ e : Env P, e.params = env.params →
      ParseURL e input isUnsafe =
        .ok { initial env input isUnsafe with
              IsRelative := true, Path := (initial env input isUnsafe).Original } := by
    intro e he
    have hi : initial e input isUnsafe = initial env input isUnsafe := by
      simp [initial, he]
    rw [ParseURL_eq, hi, initial_Original, if_neg hne, if_pos (by rw [hp1, hp2]; rfl)]
  refine ⟨_, key env rfl, rfl, ?_, ?_, fun d => key _ rfl⟩
  · exact (initial_frame env input isUnsafe).1
  · show (initial env input isUnsafe).Original = _
    rw [initial_Original]; rfl

/-- Claim C1 at "/path?a=1#frag" with the lenient flag set. -/
theorem ParseURL_relative_fast_path_witness :
    ∃ u, ParseURL (sampleEnv false) "/path?a=1#frag".toList true = .ok u ∧
      u.IsRelative = true ∧ u.Host = [] ∧
      u.Path = beforeRune '?' (beforeRune '#' "/path?a=1#frag".toList) ∧
      ∀ delegate, ParseURL { sampleEnv false with urlParse := delegate }
        "/path?a=1#frag".toList true = .ok u :=
  ParseURL_relative_fast_path (sampleEnv false) "/path?a=1#frag".toList true
    (by decide) (by decide)

/-! ## Fragment, query and original text of a parsed URL -/

/-- A successful `ParseURL` returns the original text, fragment and parameters that
`fetchParams` extracted. -/
theorem ParseURL_ok_frame {env : Env P} {input : Str} {f : Bool} {u : URL P}
    (h : ParseURL env input f = .ok u) :
    u.Original = (initial env input f).Original ∧
    u.Fragment = (initial env input f).Fragment ∧
    u.Params = (initial env input f).Params := by
  rw [ParseURL_eq] at h
  split at h
  · cases h
  · split at h
    · cases h; exact ⟨rfl, rfl, rfl⟩
    · split at h
      · cases h
      · rename_i u1 h1
        split at h
        · cases h
        · rename_i u2 h2
          split at h
          · cases h
          · cases h
            obtain ⟨a1, a2, a3⟩ := parseHost_frame h1
            obtain ⟨b1, b2, b3⟩ := parsePath_frame h2
            obtain ⟨c1, c2, c3, -⟩ := parseRelativePath_frame env.RFCEscapeCharSet u2
            exact ⟨c1.trans (b1.trans a1), c2.trans (b2.trans a2), c3.trans (b3.trans a3)⟩

/-- Claim C2: when `ParseURL` succeeds, with `s` the input up to its first '#', the
fragment is the input text after that '#', `Original` is `s` up to its first '?' and
holds neither '#' nor '?', and `Params` is the text of `s` after that '?' decoded into
an empty store (the empty store when `s` has no '?'). -/
theorem ParseURL_fragment_query (env : Env P) (input : Str) (isUnsafe : Bool) (u : URL P)
    (h : ParseURL env input isUnsafe = .ok u) :
    u.Fragment = afterRune '#' input ∧
    u.Original = beforeRune '?' (beforeRune '#' input) ∧
    '#' ∉ u.Original ∧ '?' ∉ u.Original ∧
    u.Params =
      if '?' ∈ beforeRune '#' input
      then env.params.Decode env.params.empty (afterRune '?' (beforeRune '#' input))
      else env.params.empty := by
  obtain ⟨h1, h2, h3⟩ := ParseURL_ok_frame h
  rw [initial_Original] at h1
  rw [initial_Fragment] at h2
  rw [initial_Params] at h3
  refine ⟨h2, h1, ?_, ?_, h3⟩
  · rw [h1]
    intro hm
    exact not_mem_beforeRune '#' input ((beforeRune_sublist '?' _).mem hm)
  · rw [h1]
    exact not_mem_beforeRune '?' _

/-- Claim C2 at "/path?a=1#frag": path "/path", parameters {a: ["1"]}, fragment "frag". -/
theorem ParseURL_fragment_query_witness :
    ParseURL (sampleEnv false) "/path?a=1#frag".toList false = .ok pathQueryFragment ∧
    pathQueryFragment.Fragment = afterRune '#' "/path?a=1#frag".toList ∧
    pathQueryFragment.Original = beforeRune '?' (beforeRune '#' "/path?a=1#frag".toList) ∧
    '#' ∉ pathQueryFragment.Original ∧ '?' ∉ pathQueryFragment.Original ∧
    pathQueryFragment.Params =
      if '?' ∈ beforeRune '#' "/path?a=1#frag".toList
      then (sampleEnv false).params.Decode (sampleEnv false).params.empty
        (afterRune '?' (beforeRune '#' "/path?a=1#frag".toList))
      else (sampleEnv false).params.empty :=
  ⟨rfl, ParseURL_fragment_query (sampleEnv false) "/path?a=1#frag".toList false
    pathQueryFragment rfl⟩

/-! ## Autocorrection of a host that is neither a domain nor an address -/

theorem length_le_goLen (s : Str) : s.length ≤ goLen s := by
  induction s with
  | nil => simp [goLen]
  | cons c t ih =>
    have : 1 ≤ runeLen c := by unfold runeLen; split_ifs <;> omega
    simp only [List.length_cons, goLen]
    omega

/-- When the first delegate call succeeds, `parseHost` copies its host and leaves the
URL absolute. -/
theorem parseHost_of_delegate_ok {env : Env P} {u : URL P} {s : Str} {r : NetURL}
    (hu : u.IsRelative = false) (hd : env.urlParse (delegateInput s) = .ok r) :
    ∃ v, parseHost env u s = .ok v ∧ v.Host = r.Host ∧ v.IsRelative = false ∧
      v.Original = u.Original := by
  unfold delegateInput at hd
  unfold parseHost
  split
  · rename_i hc
    rw [if_pos hc] at hd
    rw [hd]
    exact ⟨_, rfl, rfl, rfl, rfl⟩
  · rename_i hc
    rw [if_neg hc] at hd
    rw [hd]
    exact ⟨_, rfl, rfl, hu, rfl⟩

/-- The body of `ParseURL` past the fast path, in terms of the stripped input. -/
theorem ParseURL_slow {env : Env P} {input : Str} (f : Bool)
    (hne : stripped input ≠ [])
    (hfast : ¬ (HasPrefix (stripped input) "/".toList = true ∧
      HasPrefix (stripped input) "//".toList = false)) :
    ParseURL env input f =
      match parseHost env (initial env input f) (stripped input) with
      | .error e => .error e
      | .ok u =>
        match parsePath env u (stripped input) f with
        | .error e => .error e
        | .ok u =>
          if !u.IsRelative && u.Host = [] then .error .emptyHostNotRelative
          else .ok (parseRelativePath env.RFCEscapeCharSet u) := by
  have hfast2 : ¬ ((HasPrefix (stripped input) "/".toList
      && !HasPrefix (stripped input) "//".toList) = true) := by
    intro hc
    simp only [Bool.and_eq_true, Bool.not_eq_true', Bool.not_eq_true] at hc
    exact hfast hc
  rw [ParseURL_eq, initial_Original, if_neg hne, if_neg hfast2]

/-- The last step of `ParseURL` for a value that passes the final host check. -/
theorem finish_ok {u : URL P} (h : u.IsRelative = true ∨ u.Host ≠ []) (rfc : Str) :
    (if !u.IsRelative && u.Host = [] then
        (.error .emptyHostNotRelative : Except ParseError (URL P))
      else .ok (parseRelativePath rfc u)) = .ok (parseRelativePath rfc u) := by
  rw [if_neg]
  rcases h with h | h
  · simp [h]
  · simp [h]

/-- The result of `ParseURL` from the results of its stages. -/
theorem ParseURL_of_stages {env : Env P} {input : Str} {f : Bool} {v w : URL P}
    (hne : stripped input ≠ [])
    (hfast : ¬ (HasPrefix (stripped input) "/".toList = true ∧
      HasPrefix (stripped input) "//".toList = false))
    (hv : parseHost env (initial env input f) (stripped input) = .ok v)
    (hw : parsePath env v (stripped input) f = .ok w)
    (hok : w.IsRelative = true ∨ w.Host ≠ []) :
    ParseURL env input f = .ok (parseRelativePath env.RFCEscapeCharSet w) := by
  rw [ParseURL_slow f hne hfast, hv]
  show (match parsePath env v (stripped input) f with
      | .error e => (.error e : Except ParseError (URL P))
      | .ok u =>
        if !u.IsRelative && u.Host = [] then .error .emptyHostNotRelative
        else .ok (parseRelativePath env.RFCEscapeCharSet u)) = _
  rw [hw]
  exact finish_ok hok _

theorem parsePath_absolute (env : Env P) {u : URL P} (s : Str) (f : Bool)
    (hu : u.IsRelative = false) (hne : u.Host ≠ [])
    (hdot : Contains u.Host ".".toList = false) (hcolon : Contains u.Host ":".toList = false) :
    parsePath env u s f =
      if env.DisableAutoCorrect = false
      then .ok { u with IsRelative := true, Path := s, Host := [] }
      else .ok u := by
  unfold parsePath
  rw [if_neg (by simp [hu]), if_neg hne, if_pos (by rw [hdot, hcolon]; rfl)]
  cases env.DisableAutoCorrect <;> rfl

/-- Claim C3: when the delegate call of `ParseURL` succeeds with a non-empty host that
has neither '.' nor ':', then with `DisableAutoCorrect` false the parse succeeds with a
relative URL whose path is the stripped input and whose host is empty, and with
`DisableAutoCorrect` true and a host of at least 4 characters it succeeds with an
absolute URL that keeps the delegate's host. -/
theorem ParseURL_autocorrect (env : Env P) (input : Str) (isUnsafe : Bool) (r : NetURL)
    (hne : stripped input ≠ [])
    (hfast : ¬ (HasPrefix (stripped input) "/".toList = true ∧
      HasPrefix (stripped input) "//".toList = false))
    (hd : env.urlParse (delegateInput (stripped input)) = .ok r)
    (hh : r.Host ≠ [])
    (hdot : Contains r.Host ".".toList = false) (hcolon : Contains r.Host ":".toList = false) :
    (env.DisableAutoCorrect = false →
      ∃ u, ParseURL env input isUnsafe = .ok u ∧ u.IsRelative = true ∧
        u.Path = stripped input ∧ u.Original = stripped input ∧ u.Host = []) ∧
    (env.DisableAutoCorrect = true → 4 ≤ r.Host.length →
      ∃ u, ParseURL env input isUnsafe = .ok u ∧ u.IsRelative = false ∧
        u.Host = r.Host) := by
  have hO := initial_Original env input isUnsafe
  obtain ⟨v, hv, hvH, hvR, hvO⟩ :=
    parseHost_of_delegate_ok (u := initial env input isUnsafe)
      (initial_frame env input isUnsafe).2.2 hd
  have hvne : v.Host ≠ [] := hvH ▸ hh
  have hOv : v.Original = stripped input := hvO.trans hO
  have hpp := parsePath_absolute env (stripped input) isUnsafe hvR hvne
    (hvH ▸ hdot) (hvH ▸ hcolon)
  constructor
  · intro hac
    rw [if_pos hac] at hpp
    refine ⟨_, ParseURL_of_stages hne hfast hv hpp (Or.inl rfl), ?_⟩
    unfold parseRelativePath
    simp only [decide_True, Bool.true_or, if_true]
    split
    · exact ⟨rfl, hOv, hOv, rfl⟩
    · exact ⟨rfl, rfl, hOv, rfl⟩
  · intro hac hlen
    rw [if_neg (by simp [hac])] at hpp
    have h4 : ¬ (goLen v.Host < 4) := by
      have := length_le_goLen v.Host
      rw [hvH]; rw [hvH] at this; omega
    refine ⟨_, ParseURL_of_stages hne hfast hv hpp (Or.inr hvne), ?_⟩
    unfold parseRelativePath
    rw [if_neg (by simp [hvne, h4])]
    split
    · exact ⟨hvR, hvH⟩
    · exact ⟨hvR, hvH⟩

/-- Claim C3 at "admin", which the delegate reads (as "https://admin") with host
"admin": a relative path "admin" with autocorrection enabled, an absolute URL with host
"admin" with autocorrection disabled. -/
theorem ParseURL_autocorrect_witness :
    (∃ u, ParseURL (sampleEnv false) "admin".toList false = .ok u ∧ u.IsRelative = true ∧
      u.Path = stripped "admin".toList ∧ u.Original = stripped "admin".toList ∧
      u.Host = []) ∧
    (∃ u, ParseURL (sampleEnv true) "admin".toList false = .ok u ∧ u.IsRelative = false ∧
      u.Host = "admin".toList) :=
  ⟨(ParseURL_autocorrect (sampleEnv false) "admin".toList false
      { Scheme := "https".toList, Host := "admin".toList }
      (by decide) (by decide) rfl (by decide) (by decide) (by decide)).1 rfl,
   (ParseURL_autocorrect (sampleEnv true) "admin".toList false
      { Scheme := "https".toList, Host := "admin".toList }
      (by decide) (by decide) rfl (by decide) (by decide) (by decide)).2 rfl (by decide)⟩

/-- The step `parseRelativePath` on a URL whose host is empty or shorter than 4 bytes
and whose original text needs escaping. -/
theorem parseRelativePath_escape {rfc : Str} {u : URL P}
    (hh : u.Host = [] ∨ goLen u.Host < 4) (he : shouldEscape rfc u.Original = true) :
    (parseRelativePath rfc u).IsRelative = true ∧
    (parseRelativePath rfc u).Path = u.Original := by
  unfold parseRelativePath
  rw [if_pos (by simpa using hh), if_pos he]
  exact ⟨rfl, rfl⟩

/-! ## A relative result with a host -/

/-- Claim C4 fails on the code: "a:1" (a one-letter host with a port) and "a.b/é" are
returned as relative URLs that keep their host.  The delegate accepts both as absolute,
the host is shorter than 4 bytes, and `parseRelativePath` then sets `IsRelative` without
clearing `Host`; the second input does so for every value of `RFCEscapeCharSet`. -/
theorem ParseURL_relative_with_host :
    (∃ u, ParseURL (sampleEnv false) "a:1".toList false = .ok u ∧
      u.IsRelative = true ∧ u.Host = "a:1".toList) ∧
    (∀ rfc, ∃ u, ParseURL { sampleEnv false with RFCEscapeCharSet := rfc }
        "a.b/é".toList false = .ok u ∧
      u.IsRelative = true ∧ u.Host = "a.b".toList) := by
  refine ⟨⟨_, rfl, rfl, rfl⟩, fun rfc => ?_⟩
  have hne : stripped "a.b/é".toList ≠ [] := by decide
  have hfast : ¬ (HasPrefix (stripped "a.b/é".toList) "/".toList = true ∧
      HasPrefix (stripped "a.b/é".toList) "//".toList = false) := by decide
  have he : shouldEscape rfc "a.b/é".toList = true := by
    simp [shouldEscape, getrunemap]
  refine ⟨_, @ParseURL_of_stages _ { sampleEnv false with RFCEscapeCharSet := rfc }
    "a.b/é".toList false _ _ hne hfast rfl rfl (Or.inr (List.cons_ne_nil _ _)), ?_, ?_⟩
  · have h3 : goLen "a.b".toList < 4 := by decide
    exact (parseRelativePath_escape (Or.inr h3) he).1
  · exact (parseRelativePath_frame rfc _).2.2.2

/-! ## Delegate failures and the lenient flag -/

/-- The first stage fails only with the delegate's error on a URL-like input. -/
theorem parseHost_error {env : Env P} {u : URL P} {s : Str} {e : ParseError}
    (h : parseHost env u s = .error e) :
    (HasPrefixAny s ["http".toList, "https".toList, "//".toList]
      || Contains s "://".toList) = true ∧
    ∃ pe, env.urlParse s = .error pe ∧ e = .parseFailed pe := by
  unfold parseHost at h
  split at h
  · rename_i hc
    split at h
    · rename_i pe hpe
      cases h
      exact ⟨hc, pe, hpe, rfl⟩
    · cases h
  · split at h <;> cases h

/-- The second stage fails with the delegate's error only when the flag is false. -/
theorem parsePath_error {env : Env P} {u : URL P} {s : Str} {f : Bool} {e : ParseError}
    (h : parsePath env u s f = .error e) :
    e = .emptyHost ∨ (f = false ∧ ∃ pe, e = .inputParseFailed pe) := by
  unfold parsePath at h
  split at h
  · split at h
    · split at h
      · rename_i pe _ hf
        cases h
        exact Or.inr ⟨by simpa using hf, pe, rfl⟩
      · cases h
    · cases h
  · split at h
    · cases h; exact Or.inl rfl
    · split at h
      · split at h <;> cases h
      · cases h

/-- Every error of `ParseURL`, by the place that returns it. -/
theorem ParseURL_error {env : Env P} {input : Str} {f : Bool} {e : ParseError}
    (h : ParseURL env input f = .error e) :
    (e = .emptyInput ∧ stripped input = []) ∨
    (stripped input ≠ [] ∧
      ((∃ pe, e = .parseFailed pe ∧ env.urlParse (stripped input) = .error pe ∧
          (HasPrefixAny (stripped input) ["http".toList, "https".toList, "//".toList]
            || Contains (stripped input) "://".toList) = true) ∨
        (f = false ∧ ∃ pe, e = .inputParseFailed pe) ∨
        e = .emptyHost ∨ e = .emptyHostNotRelative)) := by
  rw [ParseURL_eq, initial_Original] at h
  split at h
  · rename_i h0
    cases h
    exact Or.inl ⟨rfl, h0⟩
  · rename_i h0
    refine Or.inr ⟨h0, ?_⟩
    split at h
    · cases h
    · split at h
      · rename_i e1 h1
        cases h
        obtain ⟨hc, pe, hpe, rfl⟩ := parseHost_error h1
        exact Or.inl ⟨pe, rfl, hpe, hc⟩
      · split at h
        · rename_i e2 h2
          cases h
          rcases parsePath_error h2 with rfl | ⟨hf, pe, rfl⟩
          · exact Or.inr (Or.inr (Or.inl rfl))
          · exact Or.inr (Or.inl ⟨hf, pe, rfl⟩)
        · split at h
          · cases h
            exact Or.inr (Or.inr (Or.inr rfl))
          · cases h

/-- Claim C5 fails on the code: for "http://a b.com/", whose stripped text is not empty
and which the delegate rejects, `ParseURL` with the lenient flag set returns the
delegate-failure error "failed to parse url". -/
theorem ParseURL_lenient_still_fails :
    stripped "http://a b.com/".toList ≠ [] ∧
    (∃ pe, (sampleEnv false).urlParse (stripped "http://a b.com/".toList) = .error pe ∧
      ParseURL (sampleEnv false) "http://a b.com/".toList true = .error (.parseFailed pe)) :=
  ⟨by decide, _, rfl, rfl⟩

/-- Claim C5, amended: the lenient flag covers the bare-token route only.  The error
"failed to parse input url" is never returned when the flag is set; when the stripped
input is not empty, is not a single-slash path, does not start with "http" or "//", has
no "://", and the delegate rejects it both with and without "https://" in front,
`ParseURL` with the flag set succeeds with a relative URL whose path is the raw stripped
input, and with the flag clear returns that error; for a stripped input that is not a
single-slash path (it does not start with "/", or it starts with "//") and that starts
with "http" or "//" or has "://", a delegate failure is returned as the error
"failed to parse url" whatever the flag. -/
theorem ParseURL_lenient_bare_token (env : Env P) (input : Str) :
    (∀ pe, ParseURL env input true ≠ .error (.inputParseFailed pe)) ∧
    (stripped input ≠ [] →
      ¬ (HasPrefix (stripped input) "/".toList = true ∧
        HasPrefix (stripped input) "//".toList = false) →
      (HasPrefixAny (stripped input) ["http".toList, "https".toList, "//".toList]
        || Contains (stripped input) "://".toList) = false →
      ∀ e1 e2, env.urlParse ("https://".toList ++ stripped input) = .error e1 →
        env.urlParse (stripped input) = .error e2 →
        (∃ u, ParseURL env input true = .ok u ∧ u.IsRelative = true ∧
          u.Path = stripped input) ∧
        ParseURL env input false = .error (.inputParseFailed e2)) ∧
    (¬ (HasPrefix (stripped input) "/".toList = true ∧
        HasPrefix (stripped input) "//".toList = false) →
      (HasPrefixAny (stripped input) ["http".toList, "https".toList, "//".toList]
        || Contains (stripped input) "://".toList) = true →
      ∀ pe, env.urlParse (stripped input) = .error pe →
        ∀ isUnsafe, ParseURL env input isUnsafe = .error (.parseFailed pe)) := by
  refine ⟨?_, ?_, ?_⟩
  · intro pe h
    rcases ParseURL_error h with ⟨h1, -⟩ | ⟨-, ⟨pe2, h1, -⟩ | ⟨h1, -⟩ | h1 | h1⟩
    · cases h1
    · cases h1
    · cases h1
    · cases h1
    · cases h1
  · intro hne hfast hbare e1 e2 h1 h2
    have hv : ∀ f, parseHost env (initial env input f) (stripped input) =
        .ok { initial env input f with IsRelative := true } := by
      intro f
      unfold parseHost
      rw [if_neg (by rw [hbare]; simp), h1]
    constructor
    · have hw : parsePath env { initial env input true with IsRelative := true }
          (stripped input) true =
          .ok { initial env input true with IsRelative := true, Path := stripped input } := by
        unfold parsePath
        rw [if_pos rfl, h2]
        rfl
      refine ⟨_, ParseURL_of_stages hne hfast (hv true) hw (Or.inl rfl), ?_, ?_⟩
      · unfold parseRelativePath
        split
        · split <;> rfl
        · split <;> rfl
      · have hH := (initial_frame env input true).1
        have hO := initial_Original env input true
        unfold parseRelativePath
        rw [if_pos (by simp [hH])]
        split
        · exact hO
        · rfl
    · rw [ParseURL_slow false hne hfast, hv false]
      show (match parsePath env { initial env input false with IsRelative := true }
          (stripped input) false with
        | .error e => (.error e : Except ParseError (URL P))
        | .ok u =>
          if !u.IsRelative && u.Host = [] then .error .emptyHostNotRelative
          else .ok (parseRelativePath env.RFCEscapeCharSet u)) = _
      have hw : parsePath env { initial env input false with IsRelative := true }
          (stripped input) false = .error (.inputParseFailed e2) := by
        unfold parsePath
        rw [if_pos rfl, h2]
        rfl
      rw [hw]
  · intro hfast hurl pe hpe f
    have hne : stripped input ≠ [] := by
      intro h0
      rw [h0] at hurl
      exact absurd hurl (by decide)
    rw [ParseURL_slow f hne hfast]
    have hv : parseHost env (initial env input f) (stripped input) =
        .error (.parseFailed pe) := by
      unfold parseHost
      rw [if_pos hurl]
      simp only [hpe]
    rw [hv]

/-- Claim C5 as amended, at "%zz" and at "http://a b.com/".  The delegate rejects both
"https://%zz" and "%zz": with the flag set the parse returns the relative path "%zz",
with the flag clear it returns the error.  The delegate rejects "http://a b.com/", and
the parse returns the error "failed to parse url" with the flag set. -/
theorem ParseURL_lenient_bare_token_witness :
    ((∃ u, ParseURL (sampleEnv false) "%zz".toList true = .ok u ∧ u.IsRelative = true ∧
        u.Path = stripped "%zz".toList) ∧
      ParseURL (sampleEnv false) "%zz".toList false =
        .error (.inputParseFailed "parse \"%zz\": invalid URL escape \"%zz\"".toList)) ∧
    ParseURL (sampleEnv false) "http://a b.com/".toList true =
      .error (.parseFailed
        "parse \"http://a b.com/\": invalid character \" \" in host name".toList) :=
  ⟨(ParseURL_lenient_bare_token (sampleEnv false) "%zz".toList).2.1
      (by decide) (by decide) (by decide) _ _ rfl rfl,
   (ParseURL_lenient_bare_token (sampleEnv false) "http://a b.com/".toList).2.2
      (by decide) (by decide) _ rfl true⟩

/-! ## Percent-encoded paths are kept verbatim -/

/-- Claim C6 fails on the code when the host is counted in characters: for "é.b/x" the
delegate's host "é.b" has 3 characters and 4 bytes, `shouldEscape` holds of the original
text, and the result is absolute with the path "/x", because the code compares `len`,
the length in bytes, with 4. -/
theorem ParseURL_short_host_in_characters :
    ∃ u, ParseURL (sampleEnv false) "é.b/x".toList false = .ok u ∧
      u.Host = "é.b".toList ∧ u.Host.length = 3 ∧ goLen u.Host = 4 ∧
      shouldEscape (sampleEnv false).RFCEscapeCharSet u.Original = true ∧
      u.IsRelative = false ∧ u.Path = "/x".toList ∧ u.Path ≠ u.Original :=
  ⟨_, rfl, rfl, rfl, rfl, rfl, rfl, rfl, by decide⟩

/-- Claim C6, amended: when `ParseURL` succeeds with a host that is empty or shorter
than 4 bytes (Go's `len`; the number of characters for an ASCII host) and `shouldEscape`
holds of `Original`, the result is relative and its path is `Original`, character for
character. -/
theorem ParseURL_escaped_path_kept (env : Env P) (input : Str) (isUnsafe : Bool) (u : URL P)
    (h : ParseURL env input isUnsafe = .ok u)
    (hh : u.Host = [] ∨ goLen u.Host < 4)
    (he : shouldEscape env.RFCEscapeCharSet u.Original = true) :
    u.IsRelative = true ∧ u.Path = u.Original := by
  rw [ParseURL_eq] at h
  split at h
  · cases h
  · split at h
    · cases h; exact ⟨rfl, rfl⟩
    · split at h
      · cases h
      · split at h
        · cases h
        · rename_i w _
          split at h
          · cases h
          · cases h
            obtain ⟨hO, -, -, hH⟩ := parseRelativePath_frame env.RFCEscapeCharSet w
            rw [hO] at he ⊢
            rw [hH] at hh
            exact parseRelativePath_escape hh he

/-- Claim C6 as amended, at "/%20test%0a" (empty host) and at "a.b/é" (a host of 3
bytes). -/
theorem ParseURL_escaped_path_kept_witness :
    (ParseURL (sampleEnv false) "/%20test%0a".toList false = .ok percentPath ∧
      percentPath.IsRelative = true ∧ percentPath.Path = percentPath.Original ∧
      percentPath.Path = "/%20test%0a".toList) ∧
    (ParseURL (sampleEnv false) "a.b/é".toList false = .ok shortHostPath ∧
      shortHostPath.IsRelative = true ∧ shortHostPath.Path = shortHostPath.Original) :=
  ⟨⟨rfl, (ParseURL_escaped_path_kept (sampleEnv false) "/%20test%0a".toList false
      percentPath rfl (Or.inl rfl) (by decide)).1,
     (ParseURL_escaped_path_kept (sampleEnv false) "/%20test%0a".toList false
      percentPath rfl (Or.inl rfl) (by decide)).2, rfl⟩,
   rfl, ParseURL_escaped_path_kept (sampleEnv false) "a.b/é".toList false
      shortHostPath rfl (Or.inr (by decide)) (by decide)⟩

/-! ## The empty-input error -/

theorem beforeRune_eq_nil (c : Char) (s : Str) :
    beforeRune c s = [] ↔ s = [] ∨ ∃ t, s = c :: t := by
  cases s with
  | nil => simp [beforeRune]
  | cons x t =>
    by_cases hx : x = c
    · subst hx; simp [beforeRune]
    · have : ¬ (c = x) := fun h => hx h.symm
      simp [beforeRune, List.takeWhile, hx, this]

theorem stripped_eq_nil (input : Str) :
    stripped input = [] ↔
      input = [] ∨ (∃ t, input = '#' :: t) ∨ (∃ t, input = '?' :: t) := by
  unfold stripped
  rw [beforeRune_eq_nil]
  constructor
  · rintro (h | ⟨t, ht⟩)
    · rcases (beforeRune_eq_nil _ _).1 h with h | h
      · exact Or.inl h
      · exact Or.inr (Or.inl h)
    · cases input with
      | nil => exact Or.inl rfl
      | cons x r =>
        by_cases hx : x = '#'
        · exact Or.inr (Or.inl ⟨r, by rw [hx]⟩)
        · have hb : beforeRune '#' (x :: r) = x :: beforeRune '#' r := by
            simp [beforeRune, List.takeWhile, hx]
          rw [hb] at ht
          injection ht with h1 h2
          exact Or.inr (Or.inr ⟨r, by rw [h1]⟩)
  · rintro (h | ⟨t, rfl⟩ | ⟨t, rfl⟩)
    · subst h; exact Or.inl rfl
    · exact Or.inl (by simp [beforeRune])
    · exact Or.inr ⟨beforeRune '#' t, by simp [beforeRune, List.takeWhile]⟩

/-- Claim C7: for either flag, `ParseURL` returns the empty-input error exactly when
nothing is left after fragment and query stripping, which is exactly when the input is
empty or begins with '#' or '?'; the result is then an error, so no URL is returned. -/
theorem ParseURL_emptyInput_iff (env : Env P) (input : Str) (isUnsafe : Bool) :
    (ParseURL env input isUnsafe = .error .emptyInput ↔ stripped input = []) ∧
    (stripped input = [] ↔
      input = [] ∨ (∃ t, input = '#' :: t) ∨ (∃ t, input = '?' :: t)) := by
  refine ⟨⟨fun h => ?_, fun h => ?_⟩, stripped_eq_nil input⟩
  · rcases ParseURL_error h with ⟨-, h0⟩ | ⟨-, ⟨pe, h1, -⟩ | ⟨-, pe, h1⟩ | h1 | h1⟩
    · exact h0
    · cases h1
    · cases h1
    · cases h1
    · cases h1
  · rw [ParseURL_eq, initial_Original, if_pos h]

/-! ## Serialising and parsing again -/

/-- Claim C8 fails on the code.  "http://a.bc@a.bc/x" parses as absolute; its host
"a.bc" occurs first inside the user info, so `parseRelativePath` takes "@a.bc/x" as the
path; `String` gives "http://a.bc@a.bc/@a.bc/x", which parses to the same host and the
different path "@a.bc/@a.bc/x".  "//httpbin.org/get" parses as absolute; `String` gives
"httpbin.org/get", which starts with "http", is handed to the delegate as it stands, and
fails with an empty host. -/
theorem Parse_String_round_trip_fails :
    (∃ u v, Parse (sampleEnv false) "http://a.bc@a.bc/x".toList = .ok u ∧
      u.IsRelative = false ∧ u.Host = "a.bc".toList ∧ u.Path = "@a.bc/x".toList ∧
      URL.String kvStore u = "http://a.bc@a.bc/@a.bc/x".toList ∧
      Parse (sampleEnv false) (URL.String kvStore u) = .ok v ∧
      v.Host = "a.bc".toList ∧ v.Path = "@a.bc/@a.bc/x".toList ∧ v.Path ≠ u.Path) ∧
    (∃ u, Parse (sampleEnv false) "//httpbin.org/get".toList = .ok u ∧
      u.IsRelative = false ∧ u.Host = "httpbin.org".toList ∧ u.Path = "/get".toList ∧
      URL.String kvStore u = "httpbin.org/get".toList ∧
      Parse (sampleEnv false) (URL.String kvStore u) = .error .emptyHost) :=
  ⟨⟨_, _, rfl, rfl, rfl, rfl, rfl, rfl, rfl, rfl, by decide⟩,
   ⟨_, rfl, rfl, rfl, rfl, rfl, rfl⟩⟩

/-! ## `mergePaths` -/

/-- Claim C9: for non-empty `a` and `b` where `a` does not end with "/", `b` starts
with "/", `a` differs from `b`, `a` does not end with `b` and `b` does not start with
`a`, `mergePaths a b` is `a` followed by `b`, with nothing added, removed or rewritten. -/
theorem mergePaths_concat (a b : Str) (ha : a ≠ []) (hb : b ≠ [])
    (h1 : HasSuffix a "/".toList = false) (h2 : HasPrefix b "/".toList = true)
    (hab : a ≠ b) (hs : HasSuffix a b = false) (hp : HasPrefix b a = false) :
    mergePaths a b = a ++ b := by
  unfold mergePaths
  simp only [h1, h2, hs, hp, Bool.false_and, Bool.and_false, Bool.not_true, Bool.not_false,
    Bool.and_true, if_false, Bool.false_eq_true, if_neg ha, if_neg hb, if_neg hab]

/-- Claim C9 at the three pairs the claim names. -/
theorem mergePaths_concat_witness :
    mergePaths "/blog".toList "/admin".toList = "/blog".toList ++ "/admin".toList ∧
    mergePaths "/blog/admin".toList "/blog".toList = "/blog/admin".toList ++ "/blog".toList ∧
    mergePaths "/blog/wp".toList "/wp-content".toList =
      "/blog/wp".toList ++ "/wp-content".toList :=
  ⟨mergePaths_concat _ _ (by decide) (by decide) (by decide) (by decide) (by decide)
      (by decide) (by decide),
   mergePaths_concat _ _ (by decide) (by decide) (by decide) (by decide) (by decide)
      (by decide) (by decide),
   mergePaths_concat _ _ (by decide) (by decide) (by decide) (by decide) (by decide)
      (by decide) (by decide)⟩

/-- Claim C10 fails on the code: "/a/b" is longer than "/a/" and starts with it, and
"blog/x" is longer than "blog" and starts with it, yet the merge is not the second path.
In the first pair the leading slash of the second path is trimmed before the comparison,
in the second a slash is put in front of it. -/
theorem mergePaths_prefix_not_collapsed :
    ("/a/".toList ≠ [] ∧ "/a/b".toList ≠ [] ∧ goLen "/a/".toList < goLen "/a/b".toList ∧
      HasPrefix "/a/b".toList "/a/".toList = true ∧
      mergePaths "/a/".toList "/a/b".toList = "/a/a/b".toList ∧
      mergePaths "/a/".toList "/a/b".toList ≠ "/a/b".toList) ∧
    ("blog".toList ≠ [] ∧ "blog/x".toList ≠ [] ∧ goLen "blog".toList < goLen "blog/x".toList ∧
      HasPrefix "blog/x".toList "blog".toList = true ∧
      mergePaths "blog".toList "blog/x".toList = "blog/blog/x".toList ∧
      mergePaths "blog".toList "blog/x".toList ≠ "blog/x".toList) := by
  decide

/-- When exactly one of the two boundaries has a slash, the merge neither trims the second
path nor puts a slash in front of it, and a longer second path that starts with the first
is returned as it is. -/
theorem mergePaths_one_slash (a b : Str) (ha : a ≠ []) (hb : b ≠ [])
    (hlen : goLen a < goLen b) (hp : HasPrefix b a = true)
    (hx : HasSuffix a "/".toList ≠ HasPrefix b "/".toList) :
    mergePaths a b = b := by
  have hab : a ≠ b := by
    rintro rfl
    exact Nat.lt_irrefl _ hlen
  have hgt : ¬ (goLen a > goLen b) := by omega
  unfold mergePaths
  cases hA : HasSuffix a "/".toList <;> cases hB : HasPrefix b "/".toList
  · rw [hA, hB] at hx; exact absurd rfl hx
  · simp only [hA, hB, Bool.false_and, Bool.false_eq_true, if_false, if_neg ha, if_neg hb,
      Bool.not_false, Bool.not_true, Bool.and_false, if_neg hab]
    rw [if_neg (by simp [hgt]), if_pos (by simp [hlen, hp])]
  · simp only [hA, hB, Bool.and_false, Bool.false_eq_true, if_false, if_neg ha, if_neg hb,
      Bool.not_false, Bool.not_true, Bool.false_and, if_neg hab]
    rw [if_neg (by simp [hgt]), if_pos (by simp [hlen, hp])]
  · rw [hA, hB] at hx; exact absurd rfl hx

/-! ## `mergePaths`: the trimming step, equal paths, and what survives a merge -/

theorem HasPrefix_iff (s p : Str) : HasPrefix s p = true ↔ p <+: s := by
  unfold HasPrefix
  exact List.isPrefixOf_iff_prefix

theorem HasSuffix_iff (s p : Str) : HasSuffix s p = true ↔ p <:+ s := by
  unfold HasSuffix
  exact List.isSuffixOf_iff_suffix

/-- The function `mergePaths` is its trimming step followed by the remaining rules. -/
theorem mergePaths_eq (a b : Str) :
    mergePaths a b =
      mergeRest a (if HasSuffix a "/".toList && HasPrefix b "/".toList
        then TrimLeft b "/".toList else b) := rfl

theorem TrimLeft_isSuffix (b cutset : Str) : TrimLeft b cutset <:+ b :=
  List.dropWhile_suffix _

theorem goLen_append (a b : Str) : goLen (a ++ b) = goLen a + goLen b := by
  induction a with
  | nil => simp [goLen]
  | cons c t ih =>
    show runeLen c + goLen (t ++ b) = (runeLen c + goLen t) + goLen b
    rw [ih]; omega

theorem goLen_pos {s : Str} (h : s ≠ []) : 0 < goLen s := by
  have h1 := length_le_goLen s
  have h2 : 0 < s.length := List.length_pos.2 h
  omega

/-- A proper suffix is shorter in bytes. -/
theorem goLen_lt_of_suffix {e a : Str} (h : e <:+ a) (hne : a ≠ e) : goLen e < goLen a := by
  obtain ⟨w, rfl⟩ := h
  have hw : w ≠ [] := by
    rintro rfl
    exact hne rfl
  have := goLen_pos hw
  rw [goLen_append]
  omega

/-- The overlap rules (lines 50-58) keep the first path in front and the second at
the end. -/
theorem overlap_keeps (a x : Str) :
    a <+: (if a = x then a
      else if goLen a > goLen x && HasSuffix a x then a
      else if goLen a < goLen x && HasPrefix x a then x
      else a ++ x) ∧
    x <:+ (if a = x then a
      else if goLen a > goLen x && HasSuffix a x then a
      else if goLen a < goLen x && HasPrefix x a then x
      else a ++ x) := by
  split
  · rename_i heq
    exact ⟨List.prefix_refl _, heq ▸ List.suffix_refl _⟩
  · split
    · rename_i hs
      simp only [Bool.and_eq_true] at hs
      exact ⟨List.prefix_refl _, (HasSuffix_iff _ _).1 hs.2⟩
    · split
      · rename_i hp
        simp only [Bool.and_eq_true] at hp
        exact ⟨(HasPrefix_iff _ _).1 hp.2, List.suffix_refl _⟩
      · exact ⟨List.prefix_append _ _, List.suffix_append _ _⟩

/-- The rules after the trimming step keep the first path in front and the second
path at the end. -/
theorem mergeRest_keeps (a e : Str) : a <+: mergeRest a e ∧ e <:+ mergeRest a e := by
  unfold mergeRest
  split
  · rename_i h0; subst h0
    exact ⟨List.nil_prefix, List.suffix_refl _⟩
  · split
    · rename_i h1; subst h1
      exact ⟨List.prefix_refl _, List.nil_suffix⟩
    · have hin : e <:+ (if (!HasSuffix a "/".toList && !HasPrefix e "/".toList) = true
          then "/".toList ++ e else e) := by
        split
        · exact List.suffix_append _ _
        · exact List.suffix_refl _
      exact ⟨(overlap_keeps a _).1, hin.trans (overlap_keeps a _).2⟩

/-- Claim C19: for all `a` and `b`, `mergePaths a b` starts with `a` and ends with `b`
stripped of all its leading slashes. -/
theorem mergePaths_keeps_base_and_tail (a b : Str) :
    HasPrefix (mergePaths a b) a = true ∧
    HasSuffix (mergePaths a b) (TrimLeft b "/".toList) = true := by
  rw [HasPrefix_iff, HasSuffix_iff, mergePaths_eq]
  refine ⟨(mergeRest_keeps a _).1, ?_⟩
  refine List.IsSuffix.trans ?_ (mergeRest_keeps a _).2
  split
  · exact List.suffix_refl _
  · exact TrimLeft_isSuffix b _

/-- Claim C11 fails on the code: for "/a/" and "//b" the merge is "/a/b", both leading
slashes of the second path removed, while the remaining rules applied to "/a/" and the
second path without its first character only give "/a//b". -/
theorem mergePaths_trims_every_slash :
    HasSuffix "/a/".toList "/".toList = true ∧ HasPrefix "//b".toList "/".toList = true ∧
    mergePaths "/a/".toList "//b".toList = "/a/b".toList ∧
    mergeRest "/a/".toList ("//b".toList.drop 1) = "/a//b".toList ∧
    mergePaths "/a/".toList "//b".toList ≠ mergeRest "/a/".toList ("//b".toList.drop 1) := by
  decide

/-- Claim C12 fails on the code: merging "x" with itself gives "x/x". -/
theorem mergePaths_self_slashless :
    mergePaths "x".toList "x".toList = "x/x".toList ∧
    mergePaths "x".toList "x".toList ≠ "x".toList := by
  decide

/-- Claim C12, amended: for every `a` that is empty, starts with "/" or ends with "/",
`mergePaths a a = a`. -/
theorem mergePaths_self (a : Str)
    (h : a = [] ∨ HasPrefix a "/".toList = true ∨ HasSuffix a "/".toList = true) :
    mergePaths a a = a := by
  rw [mergePaths_eq]
  by_cases ha : a = []
  · subst ha; rfl
  · cases hS : HasSuffix a "/".toList <;> cases hP : HasPrefix a "/".toList
    · rcases h with h | h | h
      · exact absurd h ha
      · rw [hP] at h; cases h
      · rw [hS] at h; cases h
    · simp only [Bool.false_and, Bool.false_eq_true, if_false]
      unfold mergeRest
      simp only [if_neg ha, hS, hP, Bool.not_false, Bool.not_true, Bool.and_false,
        Bool.false_eq_true, if_false, if_true]
    · simp only [Bool.and_false, Bool.false_eq_true, if_false]
      unfold mergeRest
      simp only [if_neg ha, hS, hP, Bool.not_false, Bool.not_true, Bool.false_and,
        Bool.false_eq_true, if_false, if_true]
    · simp only [Bool.and_self, if_true]
      have hsuf := TrimLeft_isSuffix a "/".toList
      unfold mergeRest
      rw [if_neg ha]
      split
      · rfl
      · simp only [hS, Bool.not_true, Bool.false_and, Bool.false_eq_true, if_false]
        split
        · rfl
        · rename_i hne
          have hlt := goLen_lt_of_suffix hsuf hne
          rw [if_pos]
          simp only [Bool.and_eq_true, decide_eq_true_eq]
          exact ⟨hlt, (HasSuffix_iff _ _).2 hsuf⟩

/-- Claim C12 as amended, at "/blog", "blog/", "/blog/" and the empty path. -/
theorem mergePaths_self_witness :
    mergePaths "/blog".toList "/blog".toList = "/blog".toList ∧
    mergePaths "blog/".toList "blog/".toList = "blog/".toList ∧
    mergePaths "/blog/".toList "/blog/".toList = "/blog/".toList ∧
    mergePaths [] [] = [] :=
  ⟨mergePaths_self _ (Or.inr (Or.inl (by decide))),
   mergePaths_self _ (Or.inr (Or.inr (by decide))),
   mergePaths_self _ (Or.inr (Or.inl (by decide))),
   mergePaths_self _ (Or.inl rfl)⟩

/-! ## `MergePath` -/

/-- Claim C13: when `ParseURL` fails on the relative path, `MergePath` returns that error
and leaves the URL as it was; otherwise it returns no error, the path becomes the merge
of the old path and the parsed path, the parameters become the old ones merged with the
parsed ones, the fragment becomes the parsed fragment when that is not empty, and host,
scheme, original text and relative flag are unchanged. -/
theorem MergePath_spec (env : Env P) (u : URL P) (r : Str) (isUnsafe : Bool) :
    (∀ err, ParseURL env r isUnsafe = .error err →
      MergePath env u r isUnsafe = (u, some err)) ∧
    (∀ ux, ParseURL env r isUnsafe = .ok ux →
      (MergePath env u r isUnsafe).2 = none ∧
      (MergePath env u r isUnsafe).1.Path = mergePaths u.Path ux.Path ∧
      (MergePath env u r isUnsafe).1.Params = env.params.Merge u.Params ux.Params ∧
      (MergePath env u r isUnsafe).1.Fragment =
        (if ux.Fragment = [] then u.Fragment else ux.Fragment) ∧
      (MergePath env u r isUnsafe).1.Host = u.Host ∧
      (MergePath env u r isUnsafe).1.Scheme = u.Scheme ∧
      (MergePath env u r isUnsafe).1.Original = u.Original ∧
      (MergePath env u r isUnsafe).1.IsRelative = u.IsRelative) := by
  constructor
  · intro err h
    unfold MergePath
    rw [h]
  · intro ux h
    unfold MergePath
    rw [h]
    by_cases hf : ux.Fragment = []
    · simp [hf]
    · simp [hf]

/-- Claim C13 at the URL "https://example.com/blog?a=1#top": merging "/admin?b=2#x"
succeeds, and merging the empty string fails and changes nothing. -/
theorem MergePath_spec_witness :
    MergePath (sampleEnv false) blogURL [] false = (blogURL, some .emptyInput) ∧
    ((MergePath (sampleEnv false) blogURL "/admin?b=2#x".toList false).2 = none ∧
     (MergePath (sampleEnv false) blogURL "/admin?b=2#x".toList false).1.Path =
        "/blog/admin".toList ∧
     (MergePath (sampleEnv false) blogURL "/admin?b=2#x".toList false).1.Params =
        [("a".toList, ["1".toList]), ("b".toList, ["2".toList])] ∧
     (MergePath (sampleEnv false) blogURL "/admin?b=2#x".toList false).1.Fragment =
        "x".toList ∧
     (MergePath (sampleEnv false) blogURL "/admin?b=2#x".toList false).1.Host =
        blogURL.Host ∧
     (MergePath (sampleEnv false) blogURL "/admin?b=2#x".toList false).1.Scheme =
        blogURL.Scheme ∧
     (MergePath (sampleEnv false) blogURL "/admin?b=2#x".toList false).1.Original =
        blogURL.Original ∧
     (MergePath (sampleEnv false) blogURL "/admin?b=2#x".toList false).1.IsRelative =
        blogURL.IsRelative) :=
  ⟨(MergePath_spec (sampleEnv false) blogURL [] false).1 .emptyInput rfl,
   (MergePath_spec (sampleEnv false) blogURL "/admin?b=2#x".toList false).2
     { Path := "/admin".toList, RawQuery := "b=2".toList, Fragment := "x".toList,
       Original := "/admin".toList, Unsafe := false, IsRelative := true,
       Params := [("b".toList, ["2".toList])] } rfl⟩

/-! ## Serialisation -/

/-- The relative form, part by part. -/
theorem GetRelativePath_eq (ops : ParamsOps P) (u : URL P) :
    GetRelativePath ops u =
      (if u.Path = [] then [] else if HasPrefix u.Path "/".toList then u.Path
        else '/' :: u.Path)
      ++ (if 1 ≤ ops.len u.Params then '?' :: ops.Encode u.Params else [])
      ++ (if u.Fragment = [] then [] else '#' :: u.Fragment) := by
  unfold GetRelativePath
  rw [slash_eq]
  by_cases hp : u.Path = [] <;> by_cases hs : HasPrefix u.Path ['/'] = true <;>
    by_cases hl : 1 ≤ ops.len u.Params <;> by_cases hf : u.Fragment = [] <;>
    simp [hp, hs, hl, hf, Nat.lt_iff_add_one_le]

/-- Claim C16 fails on the code: the URL that `Parse` returns for "example.com" has an
empty path and an empty scheme; its relative form is empty, not "/", and its
serialisation is "example.com", not "://example.com/". -/
theorem serialisation_guards :
    Parse (sampleEnv false) "example.com".toList = .ok bareHost ∧
    GetRelativePath kvStore bareHost = [] ∧
    relativeFormAsClaimed kvStore bareHost = "/".toList ∧
    URL.String kvStore bareHost = "example.com".toList ∧
    stringAsClaimed kvStore bareHost = "://example.com/".toList :=
  ⟨rfl, rfl, rfl, rfl, rfl⟩

/-- Claim C16, amended: the relative form is `P ++ Q ++ F`, where `P` is empty when the
path is empty, the path itself when it starts with "/", and "/" followed by the path
otherwise; `Q` is "?" and the encoded parameters when there is at least one parameter;
`F` is "#" and the fragment when the fragment is not empty.  The serialisation is the
scheme followed by "://" when the scheme is not empty, the user info followed by "@" when
present, the host, and the relative form. -/
theorem serialisation_spec (ops : ParamsOps P) (u : URL P) :
    GetRelativePath ops u =
      (if u.Path = [] then [] else if HasPrefix u.Path "/".toList then u.Path
        else '/' :: u.Path)
      ++ (if 1 ≤ ops.len u.Params then '?' :: ops.Encode u.Params else [])
      ++ (if u.Fragment = [] then [] else '#' :: u.Fragment) ∧
    URL.String ops u =
      (if u.Scheme = [] then [] else u.Scheme ++ "://".toList)
      ++ (match u.User with
          | some user => user ++ ['@']
          | none => [])
      ++ u.Host ++ GetRelativePath ops u ∧
    (u.Path ≠ [] → u.Scheme ≠ [] →
      GetRelativePath ops u = relativeFormAsClaimed ops u ∧
      URL.String ops u = stringAsClaimed ops u) := by
  have hS : URL.String ops u =
      (if u.Scheme = [] then [] else u.Scheme ++ "://".toList)
      ++ (match u.User with
          | some user => user ++ ['@']
          | none => [])
      ++ u.Host ++ GetRelativePath ops u := by
    unfold URL.String
    by_cases hs : u.Scheme = [] <;> cases hu : u.User <;> simp [hs]
  refine ⟨GetRelativePath_eq ops u, hS, fun hp hs => ?_⟩
  have hR : GetRelativePath ops u = relativeFormAsClaimed ops u := by
    rw [GetRelativePath_eq, relativeFormAsClaimed, if_neg hp]
  refine ⟨hR, ?_⟩
  rw [hS, stringAsClaimed, if_neg hs, hR]

/-- Claim C16 as amended, at the URL "https://example.com/blog?a=1#top", whose path and
scheme are not empty: there the code and the claim's wording agree. -/
theorem serialisation_spec_witness :
    GetRelativePath kvStore blogURL = relativeFormAsClaimed kvStore blogURL ∧
    URL.String kvStore blogURL = stringAsClaimed kvStore blogURL ∧
    URL.String kvStore blogURL = "https://example.com/blog?a=1#top".toList :=
  ⟨((serialisation_spec kvStore blogURL).2.2 (by decide) (by decide)).1,
   ((serialisation_spec kvStore blogURL).2.2 (by decide) (by decide)).2, rfl⟩

/-! ## `AutoMergeRelPaths` -/

theorem beforeRune_of_not_mem {c : Char} {s : Str} (h : c ∉ s) : beforeRune c s = s := by
  cases hi : IndexRune s c with
  | none => exact (IndexRune_none hi).2.1
  | some i => exact absurd (IndexRune_some hi).1 h

theorem afterRune_of_not_mem {c : Char} {s : Str} (h : c ∉ s) : afterRune c s = [] := by
  cases hi : IndexRune s c with
  | none => exact (IndexRune_none hi).2.2
  | some i => exact absurd (IndexRune_some hi).1 h

theorem hash_not_mem_stripped (p : Str) : '#' ∉ stripped p := fun hm =>
  not_mem_beforeRune '#' p ((beforeRune_sublist '?' _).mem hm)

theorem question_not_mem_stripped (p : Str) : '?' ∉ stripped p :=
  not_mem_beforeRune '?' _

theorem stripped_stripped (p : Str) : stripped (stripped p) = stripped p := by
  show beforeRune '?' (beforeRune '#' (stripped p)) = stripped p
  rw [beforeRune_of_not_mem (hash_not_mem_stripped p),
    beforeRune_of_not_mem (question_not_mem_stripped p)]

theorem paramsOf_stripped (ops : ParamsOps P) (p : Str) :
    paramsOf ops (stripped p) = ops.empty := by
  unfold paramsOf
  rw [beforeRune_of_not_mem (hash_not_mem_stripped p), if_neg (question_not_mem_stripped p)]

theorem beforeRune_beforeRune (c : Char) (p : Str) :
    beforeRune c (beforeRune c p) = beforeRune c p :=
  beforeRune_of_not_mem (not_mem_beforeRune c p)

theorem stripped_beforeHash (p : Str) : stripped (beforeRune '#' p) = stripped p := by
  show beforeRune '?' (beforeRune '#' (beforeRune '#' p)) = stripped p
  rw [beforeRune_beforeRune]; rfl

theorem paramsOf_beforeHash (ops : ParamsOps P) (p : Str) :
    paramsOf ops (beforeRune '#' p) = paramsOf ops p := by
  unfold paramsOf
  rw [beforeRune_beforeRune]

/-- A non-empty beginning of a single-slash path is a single-slash path. -/
theorem fast_of_isPrefix {p q : Str} (hq : q ≠ []) (hqp : q <+: p)
    (h1 : HasPrefix p "/".toList = true) (h2 : HasPrefix p "//".toList = false) :
    HasPrefix q "/".toList = true ∧ HasPrefix q "//".toList = false := by
  obtain ⟨w, rfl⟩ := hqp
  cases q with
  | nil => exact absurd rfl hq
  | cons c t =>
    obtain ⟨r, hr⟩ := (HasPrefix_slash _).1 h1
    have hc : c = '/' := by
      have := List.head_eq_of_cons_eq hr
      exact this
    subst hc
    refine ⟨(HasPrefix_slash _).2 ⟨t, rfl⟩, ?_⟩
    rw [Bool.eq_false_iff]
    intro h
    obtain ⟨r2, hr2⟩ := (HasPrefix_slashSlash _).1 h
    have : HasPrefix ('/' :: t ++ w) "//".toList = true :=
      (HasPrefix_slashSlash _).2 ⟨r2 ++ w, by rw [hr2]; rfl⟩
    rw [h2] at this
    cases this

theorem beforeHash_fast {p : Str} (h1 : HasPrefix p "/".toList = true)
    (h2 : HasPrefix p "//".toList = false) :
    HasPrefix (beforeRune '#' p) "/".toList = true ∧
    HasPrefix (beforeRune '#' p) "//".toList = false := by
  refine fast_of_isPrefix ?_ (beforeRune_isPrefix '#' p) h1 h2
  obtain ⟨t, rfl⟩ := (HasPrefix_slash p).1 h1
  simp [beforeRune, List.takeWhile]

/-- The result of `ParseURL` on a single-slash path, field by field. -/
theorem ParseURL_fast_fields (env : Env P) (input : Str) (f : Bool)
    (h1 : HasPrefix input "/".toList = true) (h2 : HasPrefix input "//".toList = false) :
    ∃ u, ParseURL env input f = .ok u ∧ u.Path = stripped input ∧
      u.Fragment = afterRune '#' input ∧ u.Params = paramsOf env.params input := by
  obtain ⟨hne, hp1, hp2⟩ := stripped_fast h1 h2
  refine ⟨{ initial env input f with
      IsRelative := true, Path := (initial env input f).Original }, ?_, ?_, ?_, ?_⟩
  · rw [ParseURL_eq, initial_Original, if_neg hne, if_pos (by rw [hp1, hp2]; rfl)]
  · exact initial_Original env input f
  · exact initial_Fragment env input f
  · exact initial_Params env input f

/-- The call `MergePath` when the parsed path has no fragment. -/
theorem MergePath_plain {env : Env P} {r : Str} {f : Bool} {ux : URL P} (u : URL P)
    (h : ParseURL env r f = .ok ux) (hf : ux.Fragment = []) :
    MergePath env u r f =
      ({ u with Params := env.params.Merge u.Params ux.Params,
                Path := mergePaths u.Path ux.Path }, none) := by
  unfold MergePath
  rw [h]
  simp [hf]

/-- The function `AutoMergeRelPaths` once both inputs have parsed. -/
theorem AutoMergeRelPaths_of_parsed {env : Env P} {p1 p2 : Str} {u1 u2 : URL P}
    (h1 : Parse env p1 = .ok u1) (h2 : Parse env p2 = .ok u2) :
    AutoMergeRelPaths env p1 p2 =
      .ok (GetRelativePath env.params
        { (MergePath env u1 u2.Path false).1 with
          Params := env.params.Merge (MergePath env u1 u2.Path false).1.Params u2.Params }) := by
  unfold AutoMergeRelPaths
  rw [h1]
  show (match Parse env p2 with
    | .error err2 => (.error err2 : Except ParseError Str)
    | .ok u2 => _) = _
  rw [h2]

/-- The URL `AutoMergeRelPaths` serialises when the second input is a single-slash
path. -/
theorem AutoMergeRelPaths_merged (env : Env P) (p1 p2 : Str) (u1 : URL P)
    (hmerge : ∀ p, env.params.Merge p env.params.empty = p)
    (h1 : Parse env p1 = .ok u1)
    (h21 : HasPrefix p2 "/".toList = true) (h22 : HasPrefix p2 "//".toList = false) :
    AutoMergeRelPaths env p1 p2 =
      .ok (GetRelativePath env.params
        { u1 with Params := env.params.Merge u1.Params (paramsOf env.params p2),
                  Path := mergePaths u1.Path (stripped p2) }) := by
  obtain ⟨u2, hu2, hP2, -, hQ2⟩ := ParseURL_fast_fields env p2 false h21 h22
  obtain ⟨-, hs1, hs2⟩ := stripped_fast h21 h22
  obtain ⟨ux, hux, hPx, hFx, hQx⟩ := ParseURL_fast_fields env (stripped p2) false hs1 hs2
  rw [stripped_stripped] at hPx
  rw [afterRune_of_not_mem (hash_not_mem_stripped p2)] at hFx
  rw [paramsOf_stripped] at hQx
  rw [AutoMergeRelPaths_of_parsed h1 hu2, hP2, MergePath_plain u1 hux hFx, hPx, hQx, hQ2,
    hmerge]

/-- Claim C14: for inputs `p1` and `p2` that each start with "/" but not "//",
`AutoMergeRelPaths` succeeds; the path part of its result is the merge of the two
stripped inputs, and the query part is the encoding of the parameters of `p1` merged with
those of `p2` (present when the merged store has an entry); the fragment of `p1` follows
when it is not empty.  The store is assumed to be unchanged by merging an empty store. -/
theorem AutoMergeRelPaths_relative (env : Env P) (p1 p2 : Str)
    (hmerge : ∀ p, env.params.Merge p env.params.empty = p)
    (h11 : HasPrefix p1 "/".toList = true) (h12 : HasPrefix p1 "//".toList = false)
    (h21 : HasPrefix p2 "/".toList = true) (h22 : HasPrefix p2 "//".toList = false) :
    AutoMergeRelPaths env p1 p2 =
      .ok (mergePaths (stripped p1) (stripped p2)
        ++ (if 1 ≤ env.params.len
              (env.params.Merge (paramsOf env.params p1) (paramsOf env.params p2))
            then '?' :: env.params.Encode
              (env.params.Merge (paramsOf env.params p1) (paramsOf env.params p2))
            else [])
        ++ (if afterRune '#' p1 = [] then [] else '#' :: afterRune '#' p1)) := by
  obtain ⟨u1, hu1, hP1, hF1, hQ1⟩ := ParseURL_fast_fields env p1 false h11 h12
  rw [AutoMergeRelPaths_merged env p1 p2 u1 hmerge hu1 h21 h22, GetRelativePath_eq]
  show Except.ok ((if mergePaths u1.Path (stripped p2) = [] then []
      else if HasPrefix (mergePaths u1.Path (stripped p2)) "/".toList
        then mergePaths u1.Path (stripped p2)
        else '/' :: mergePaths u1.Path (stripped p2))
      ++ (if 1 ≤ env.params.len (env.params.Merge u1.Params (paramsOf env.params p2))
          then '?' :: env.params.Encode
            (env.params.Merge u1.Params (paramsOf env.params p2))
          else [])
      ++ (if u1.Fragment = [] then [] else '#' :: u1.Fragment)) = _
  rw [hP1, hF1, hQ1]
  obtain ⟨hne, hs1, -⟩ := stripped_fast h11 h12
  have hpre : stripped p1 <+: mergePaths (stripped p1) (stripped p2) := by
    rw [mergePaths_eq]
    exact (mergeRest_keeps _ _).1
  obtain ⟨t, ht⟩ := (HasPrefix_slash _).1 hs1
  have hslash : HasPrefix (mergePaths (stripped p1) (stripped p2)) "/".toList = true := by
    obtain ⟨w, hw⟩ := hpre
    rw [HasPrefix_slash]
    exact ⟨t ++ w, by rw [← hw, ht]; rfl⟩
  have hne2 : mergePaths (stripped p1) (stripped p2) ≠ [] := by
    obtain ⟨r, hr⟩ := (HasPrefix_slash _).1 hslash
    rw [hr]
    exact List.cons_ne_nil _ _
  rw [if_neg hne2, if_pos hslash]

/-- Claim C14 at "/a?x=1" and "/b?y=2": the result is "/a/b?x=1&y=2". -/
theorem AutoMergeRelPaths_relative_witness :
    AutoMergeRelPaths (sampleEnv false) "/a?x=1".toList "/b?y=2".toList =
      .ok "/a/b?x=1&y=2".toList :=
  AutoMergeRelPaths_relative (sampleEnv false) "/a?x=1".toList "/b?y=2".toList
    (fun _ => rfl) (by decide) (by decide) (by decide) (by decide)

/-- Claim C15 fails on the code.  For "/a" and "/b#frag" the result is "/a/b": the
fragment of the second input is not carried over, while `MergePath` with "/b#frag" gives
the relative form "/a/b#frag".  For "/a" and "a.bcd//x.yz/w", which both parse, the result
is "/a/w", because the path "//x.yz/w" of the second input is parsed once more, while
`MergePath` with that input gives "/a//x.yz/w". -/
theorem AutoMergeRelPaths_differs_from_MergePath :
    Parse (sampleEnv false) "/a".toList = .ok slashA ∧
    (AutoMergeRelPaths (sampleEnv false) "/a".toList "/b#frag".toList = .ok "/a/b".toList ∧
     GetRelativePath kvStore (MergePath (sampleEnv false) slashA "/b#frag".toList false).1 =
       "/a/b#frag".toList) ∧
    ((∃ u2, Parse (sampleEnv false) "a.bcd//x.yz/w".toList = .ok u2) ∧
     AutoMergeRelPaths (sampleEnv false) "/a".toList "a.bcd//x.yz/w".toList =
       .ok "/a/w".toList ∧
     GetRelativePath kvStore
         (MergePath (sampleEnv false) slashA "a.bcd//x.yz/w".toList false).1 =
       "/a//x.yz/w".toList) :=
  ⟨rfl, ⟨rfl, rfl⟩, ⟨_, rfl⟩, rfl, rfl⟩

/-- Claim C15, amended: for every `p1` that parses and every `p2` that starts with "/"
but not "//", `AutoMergeRelPaths p1 p2` is the relative form of `Parse p1` after
`MergePath` with `p2` cut at its first '#', a call that returns no error: path and
parameters of `p2` are merged as `MergePath` does, its fragment is dropped.  When `p2`
has no fragment this is `MergePath` with `p2` itself.  The store is assumed to be
unchanged by merging an empty store. -/
theorem AutoMergeRelPaths_as_MergePath (env : Env P) (p1 p2 : Str) (u1 : URL P)
    (hmerge : ∀ p, env.params.Merge p env.params.empty = p)
    (h1 : Parse env p1 = .ok u1)
    (h21 : HasPrefix p2 "/".toList = true) (h22 : HasPrefix p2 "//".toList = false) :
    (MergePath env u1 (beforeRune '#' p2) false).2 = none ∧
    AutoMergeRelPaths env p1 p2 =
      .ok (GetRelativePath env.params (MergePath env u1 (beforeRune '#' p2) false).1) ∧
    (afterRune '#' p2 = [] →
      AutoMergeRelPaths env p1 p2 =
        .ok (GetRelativePath env.params (MergePath env u1 p2 false).1)) := by
  obtain ⟨hb1, hb2⟩ := beforeHash_fast h21 h22
  obtain ⟨ux, hux, hPx, hFx, hQx⟩ :=
    ParseURL_fast_fields env (beforeRune '#' p2) false hb1 hb2
  rw [stripped_beforeHash] at hPx
  rw [afterRune_of_not_mem (not_mem_beforeRune '#' p2)] at hFx
  rw [paramsOf_beforeHash] at hQx
  have hA := AutoMergeRelPaths_merged env p1 p2 u1 hmerge h1 h21 h22
  refine ⟨?_, ?_, fun hfrag => ?_⟩
  · rw [MergePath_plain u1 hux hFx]
  · rw [hA, MergePath_plain u1 hux hFx, hPx, hQx]
  · obtain ⟨uy, huy, hPy, hFy, hQy⟩ := ParseURL_fast_fields env p2 false h21 h22
    rw [hfrag] at hFy
    rw [hA, MergePath_plain u1 huy hFy, hPy, hQy]

/-- Claim C15 as amended, at "/a" and "/b#frag" (the result "/a/b" is the relative form
after `MergePath` with "/b") and at "/a?x=1" and "/b?y=2" (no fragment). -/
theorem AutoMergeRelPaths_as_MergePath_witness :
    (AutoMergeRelPaths (sampleEnv false) "/a".toList "/b#frag".toList =
      .ok (GetRelativePath kvStore (MergePath (sampleEnv false) slashA "/b".toList false).1) ∧
     AutoMergeRelPaths (sampleEnv false) "/a".toList "/b#frag".toList = .ok "/a/b".toList) ∧
    AutoMergeRelPaths (sampleEnv false) "/a".toList "/b?y=2".toList =
      .ok (GetRelativePath kvStore
        (MergePath (sampleEnv false) slashA "/b?y=2".toList false).1) :=
  ⟨⟨(AutoMergeRelPaths_as_MergePath (sampleEnv false) "/a".toList "/b#frag".toList slashA
      (fun _ => rfl) rfl (by decide) (by decide)).2.1, rfl⟩,
   (AutoMergeRelPaths_as_MergePath (sampleEnv false) "/a".toList "/b?y=2".toList slashA
      (fun _ => rfl) rfl (by decide) (by decide)).2.2 (by decide)⟩

/-! ## `UpdatePort` -/

/-- For a host without a port, `UpdatePort` appends ":" and the new port. -/
theorem UpdatePort_without_port (u : URL P) (newport : Str) (h : Port u.Host = []) :
    (UpdatePort u newport).Host = u.Host ++ (":".toList ++ newport) := by
  unfold UpdatePort
  simp [h]

/-- Claim C17 fails on the code: the host "example.com:80" has the port "80", and after
`UpdatePort` with "443" the host is "example.com:443:443": the old port is replaced and
the new port is then appended once more.  A host without a port, "example.com", becomes
"example.com:443". -/
theorem UpdatePort_appends_after_replacing :
    Port portURL.Host = "80".toList ∧
    (UpdatePort portURL "443".toList).Host = "example.com:443:443".toList ∧
    (UpdatePort portURL "443".toList).Host ≠ "example.com:443".toList ∧
    Port bareHost.Host = [] ∧
    (UpdatePort bareHost "443".toList).Host = "example.com:443".toList := by
  decide

/-! ## `shouldEscape` -/

/-- Claim C18 fails on the code: with the reserved characters as `RFCEscapeCharSet`,
"a" holds a character outside the set and is not flagged, and ":" holds only a member of
the set and is flagged; the claim's wording gives the opposite answers.  Whatever the
set is, code and wording disagree on "a". -/
theorem shouldEscape_membership_not_complement :
    shouldEscape rfcReserved "a".toList = false ∧
    shouldEscapeAsClaimed rfcReserved "a".toList = true ∧
    shouldEscape rfcReserved ":".toList = true ∧
    shouldEscapeAsClaimed rfcReserved ":".toList = false ∧
    (∀ rfc, shouldEscape rfc "a".toList ≠ shouldEscapeAsClaimed rfc "a".toList) := by
  refine ⟨by decide, by decide, by decide, by decide, fun rfc => ?_⟩
  cases h : rfc.contains 'a' <;>
    simp [shouldEscape, shouldEscapeAsClaimed, getrunemap, h]

/-- Claim C18, amended: `shouldEscape s` is true exactly when `s` contains a character
other than '/' that has a code point above 127 or is a member of `RFCEscapeCharSet`;
so '/' never makes the result true, even as a member of the set, and a character above
127 always does. -/
theorem shouldEscape_iff (rfc : Str) (s : Str) :
    shouldEscape rfc s = true ↔
      ∃ c, c ∈ s ∧ c ≠ '/' ∧ (127 < c.toNat ∨ c ∈ rfc) := by
  induction s with
  | nil => simp [shouldEscape]
  | cons v t ih =>
    unfold shouldEscape
    by_cases h1 : v = '/'
    · rw [if_pos h1, ih]
      constructor
      · rintro ⟨c, hc, h⟩
        exact ⟨c, List.mem_cons_of_mem _ hc, h⟩
      · rintro ⟨c, hc, hne, h⟩
        rcases List.mem_cons.1 hc with rfl | hc
        · exact absurd h1 hne
        · exact ⟨c, hc, hne, h⟩
    · rw [if_neg h1]
      by_cases h2 : v.toNat > 127
      · rw [if_pos h2]
        exact ⟨fun _ => ⟨v, List.mem_cons_self _ _, h1, Or.inl h2⟩, fun _ => rfl⟩
      · rw [if_neg h2]
        by_cases h3 : getrunemap rfc v = true
        · rw [if_pos h3]
          refine ⟨fun _ => ⟨v, List.mem_cons_self _ _, h1, Or.inr ?_⟩, fun _ => rfl⟩
          simpa [getrunemap] using h3
        · rw [if_neg h3, ih]
          constructor
          · rintro ⟨c, hc, h⟩
            exact ⟨c, List.mem_cons_of_mem _ hc, h⟩
          · rintro ⟨c, hc, hne, h⟩
            rcases List.mem_cons.1 hc with rfl | hc
            · rcases h with h | h
              · exact absurd h h2
              · exact absurd (by simpa [getrunemap] using h) h3
            · exact ⟨c, hc, hne, h⟩

/-! ## The results sent for a Shodan response -/

theorem sendHostnames_length (result : Result) (hostnames : List Str) :
    (sendHostnames result hostnames).2.length = hostnames.length := by
  induction hostnames generalizing result with
  | nil => rfl
  | cons h t ih => simp [sendHostnames, ih]

/-- The number of results sent is the number of ports times one more than the number
of host names. -/
theorem sendPorts_length (hostnames : List Str) (result : Result) (ports : List Int) :
    (sendPorts hostnames result ports).2.length = ports.length * (1 + hostnames.length) := by
  induction ports generalizing result with
  | nil => simp [sendPorts]
  | cons p t ih =>
    simp only [sendPorts, List.length_cons, List.length_append, sendHostnames_length, ih]
    rw [Nat.add_mul, Nat.one_mul]
    omega

/-- Claim C20 fails on the code: for the address "1.2.3.4", the ports 80 and 443 and the
host name "a.example", the results sent are (80, no host), (80, "a.example"),
(443, "a.example"), (443, "a.example"): the variable `result` still holds the last host
name when the second port is reached, so the bare ip/port result of port 443 is missing
and its host-name result is sent twice.  The number of results is the claimed one. -/
theorem query_keeps_last_hostname (raw : Str) :
    (sendResponse twoPorts raw).map (fun r => (r.IP, r.Port, r.Host)) =
      [("1.2.3.4".toList, 80, []), ("1.2.3.4".toList, 80, "a.example".toList),
       ("1.2.3.4".toList, 443, "a.example".toList),
       ("1.2.3.4".toList, 443, "a.example".toList)] ∧
    (resultsAsClaimed { Source := "shodan-idb".toList, IP := twoPorts.IP, Raw := raw }
        twoPorts.Ports twoPorts.Hostnames).map (fun r => (r.IP, r.Port, r.Host)) =
      [("1.2.3.4".toList, 80, []), ("1.2.3.4".toList, 80, "a.example".toList),
       ("1.2.3.4".toList, 443, []), ("1.2.3.4".toList, 443, "a.example".toList)] ∧
    sendResponse twoPorts raw ≠
      resultsAsClaimed { Source := "shodan-idb".toList, IP := twoPorts.IP, Raw := raw }
        twoPorts.Ports twoPorts.Hostnames ∧
    (sendResponse twoPorts raw).length =
      twoPorts.Ports.length * (1 + twoPorts.Hostnames.length) := by
  refine ⟨rfl, rfl, ?_, rfl⟩
  intro h
  have h2 : ["".toList, "a.example".toList, "a.example".toList, "a.example".toList] =
      ["".toList, "a.example".toList, "".toList, "a.example".toList] :=
    congrArg (fun l => l.map (fun r => r.Host)) h
  revert h2
  decide

/-! ## Prefix overlap: when the second path is returned -/

theorem mergeRest_of_ne {a e : Str} (ha : a ≠ []) (he : e ≠ []) :
    mergeRest a e =
      overlapRules a (if !HasSuffix a "/".toList && !HasPrefix e "/".toList
        then "/".toList ++ e else e) := by
  unfold mergeRest
  rw [if_neg ha, if_neg he]
  rfl

theorem mergeRest_nil_right {a : Str} (ha : a ≠ []) : mergeRest a [] = a := by
  unfold mergeRest
  rw [if_neg ha, if_pos rfl]

theorem TrimLeft_slash (b : Str) :
    TrimLeft b "/".toList = b.dropWhile (fun c => c == '/') := by
  unfold TrimLeft
  congr 1
  funext c
  rw [slash_eq]
  show List.elem c ['/'] = (c == '/')
  unfold List.elem
  cases c == '/' <;> rfl

theorem leadingSlashes_append (b : Str) : leadingSlashes b ++ TrimLeft b "/".toList = b := by
  rw [TrimLeft_slash]
  exact List.takeWhile_append_dropWhile _ _

theorem TrimLeft_head_ne_slash {b : Str} {x : Char} {r : Str}
    (h : TrimLeft b "/".toList = x :: r) : x ≠ '/' := by
  rw [TrimLeft_slash] at h
  have h2 := List.head_dropWhile_not (fun c => c == '/') b (by rw [h]; exact List.cons_ne_nil _ _)
  simp only [h, List.head_cons] at h2
  intro hx
  rw [hx] at h2
  exact absurd h2 (by decide)

theorem mem_leadingSlashes {b : Str} {c : Char} (h : c ∈ leadingSlashes b) : c = '/' := by
  have := List.mem_takeWhile_imp h
  simpa using this

/-- Trimming a path that starts with a slash makes it shorter. -/
theorem goLen_TrimLeft_lt {b : Str} (hB : HasPrefix b "/".toList = true) :
    goLen (TrimLeft b "/".toList) < goLen b := by
  apply goLen_lt_of_suffix (TrimLeft_isSuffix b _)
  intro h
  obtain ⟨t, rfl⟩ := (HasPrefix_slash b).1 hB
  exact TrimLeft_head_ne_slash h.symm rfl

/-- With a slash at neither boundary, the merge is longer than the second path. -/
theorem mergePaths_no_slash_ne {a b : Str} (ha : a ≠ []) (hb : b ≠ [])
    (hA : HasSuffix a "/".toList = false) (hB : HasPrefix b "/".toList = false) :
    mergePaths a b ≠ b := by
  rw [mergePaths_eq, hA, hB]
  simp only [Bool.false_and, Bool.false_eq_true, if_false]
  rw [mergeRest_of_ne ha hb, hA, hB]
  simp only [Bool.not_false, Bool.and_self, if_true]
  intro h
  have hs : ("/".toList ++ b) <:+ overlapRules a ("/".toList ++ b) :=
    (overlap_keeps a _).2
  rw [h] at hs
  obtain ⟨w, hw⟩ := hs
  have := congrArg goLen hw
  rw [goLen_append, goLen_append] at this
  have h1 : goLen "/".toList = 1 := by decide
  omega

/-- With a slash at both boundaries, the merge is the second path only when the first
path is the whole run of leading slashes of the second. -/
theorem mergePaths_both_slashes {a b : Str} (ha : a ≠ []) (hlen : goLen a < goLen b)
    (hA : HasSuffix a "/".toList = true) (hB : HasPrefix b "/".toList = true) :
    mergePaths a b = b ↔ a = leadingSlashes b := by
  have hab : a ≠ b := by
    rintro rfl
    exact Nat.lt_irrefl _ hlen
  have hm : mergePaths a b = mergeRest a (TrimLeft b "/".toList) := by
    rw [mergePaths_eq, hA, hB]
    rfl
  rw [hm]
  by_cases he : TrimLeft b "/".toList = []
  · rw [he, mergeRest_nil_right ha]
    constructor
    · intro h; exact absurd h hab
    · intro h
      have h2 := leadingSlashes_append b
      rw [he, List.append_nil, ← h] at h2
      exact absurd h2 hab
  · rw [mergeRest_of_ne ha he, hA]
    simp only [Bool.not_true, Bool.false_and, Bool.false_eq_true, if_false]
    constructor
    · intro h
      unfold overlapRules at h
      split at h
      · exact absurd h hab
      · split at h
        · exact absurd h hab
        · split at h
          · have := goLen_TrimLeft_lt hB
            rw [h] at this
            exact absurd this (Nat.lt_irrefl _)
          · have h2 := leadingSlashes_append b
            exact List.append_cancel_right (h.trans h2.symm)
    · intro h
      have h2 := leadingSlashes_append b
      rw [← h] at h2
      obtain ⟨x, r, hxr⟩ := List.exists_cons_of_ne_nil he
      have hx : x ≠ '/' := TrimLeft_head_ne_slash hxr
      obtain ⟨c, t, hct⟩ := List.exists_cons_of_ne_nil ha
      have hall : ∀ d, d ∈ a → d = '/' := fun d hd => mem_leadingSlashes (h ▸ hd)
      have hc : c = '/' := hall c (by rw [hct]; exact List.mem_cons_self _ _)
      unfold overlapRules
      rw [if_neg, if_neg, if_neg, h2]
      · intro hcond
        simp only [Bool.and_eq_true] at hcond
        obtain ⟨w, hw⟩ := (HasPrefix_iff _ _).1 hcond.2
        rw [hxr, hct] at hw
        have := List.head_eq_of_cons_eq hw
        exact hx (this ▸ hc)
      · intro hcond
        simp only [Bool.and_eq_true] at hcond
        obtain ⟨w, hw⟩ := (HasSuffix_iff _ _).1 hcond.2
        have hxa : x ∈ a := by
          rw [← hw, hxr]
          exact List.mem_append_right _ (List.mem_cons_self _ _)
        exact hx (hall x hxa)
      · intro heq
        rw [hxr, hct] at heq
        have := List.head_eq_of_cons_eq heq
        exact hx (this ▸ hc)

/-- Claim C10, amended: for non-empty `a` and `b` such that `b` is longer than `a` and
starts with `a`, `mergePaths a b = b` exactly when either exactly one of "`a` ends with a
slash" and "`b` starts with a slash" holds, or `a` is the whole run of leading slashes of
`b` (as for "/" and "/admin"). -/
theorem mergePaths_prefix_collapse (a b : Str) (ha : a ≠ []) (hb : b ≠ [])
    (hlen : goLen a < goLen b) (hp : HasPrefix b a = true) :
    mergePaths a b = b ↔
      (HasSuffix a "/".toList ≠ HasPrefix b "/".toList ∨ a = leadingSlashes b) := by
  cases hA : HasSuffix a "/".toList <;> cases hB : HasPrefix b "/".toList
  · constructor
    · intro h
      exact absurd h (mergePaths_no_slash_ne ha hb hA hB)
    · rintro (h | h)
      · exact absurd rfl h
      · obtain ⟨c, t, hct⟩ := List.exists_cons_of_ne_nil ha
        have hc : c = '/' := mem_leadingSlashes (h ▸ hct ▸ List.mem_cons_self _ _)
        obtain ⟨w, hw⟩ := (HasPrefix_iff _ _).1 hp
        have hB2 : HasPrefix b "/".toList = true :=
          (HasPrefix_slash b).2 ⟨t ++ w, by rw [← hw, hct, hc]; rfl⟩
        rw [hB] at hB2
        cases hB2
  · have hx : HasSuffix a "/".toList ≠ HasPrefix b "/".toList := by rw [hA, hB]; decide
    exact ⟨fun _ => Or.inl (by decide), fun _ => mergePaths_one_slash a b ha hb hlen hp hx⟩
  · have hx : HasSuffix a "/".toList ≠ HasPrefix b "/".toList := by rw [hA, hB]; decide
    exact ⟨fun _ => Or.inl (by decide), fun _ => mergePaths_one_slash a b ha hb hlen hp hx⟩
  · rw [mergePaths_both_slashes ha hlen hA hB]
    constructor
    · intro h; exact Or.inr h
    · rintro (h | h)
      · exact absurd rfl h
      · exact h

/-- Claim C10 as amended, at the two pairs the claim names and at "/" with "/admin";
and at "/a/" with "/a/b", where neither condition holds and the merge is not "/a/b". -/
theorem mergePaths_prefix_collapse_witness :
    mergePaths "/blog".toList "/blog/".toList = "/blog/".toList ∧
    mergePaths "/blog/admin".toList "/blog/admin/profile".toList =
      "/blog/admin/profile".toList ∧
    mergePaths "/".toList "/admin".toList = "/admin".toList ∧
    mergePaths "/a/".toList "/a/b".toList ≠ "/a/b".toList :=
  ⟨(mergePaths_prefix_collapse _ _ (by decide) (by decide) (by decide) (by decide)).2
      (Or.inl (by decide)),
   (mergePaths_prefix_collapse _ _ (by decide) (by decide) (by decide) (by decide)).2
      (Or.inl (by decide)),
   (mergePaths_prefix_collapse _ _ (by decide) (by decide) (by decide) (by decide)).2
      (Or.inr (by decide)),
   fun h => absurd
     ((mergePaths_prefix_collapse _ _ (by decide) (by decide) (by decide) (by decide)).1 h)
     (by decide)⟩

end Urlutil
